import Mathlib

/-!
Shallow embedding of the `ronenav/sizer` cluster-sizing core
(`src/lib/src/...`: ClusterSizer, workloadScheduler, node/service/workload
utilities, over-commit metrics), with theorems settling the frozen claims.

Conventions of the embedding:
* TS `number` is modelled as `ℚ` (all arithmetic appearing in the modelled
  fragment is exact on the inputs we consider); ids and counts are `Nat`.
* TS `undefined`-able fields are `Option _`; JS truthiness of an optional
  boolean (`x` truthy iff `x === true`) is `optTrue`; JS `??` is `Option.getD`.
* JS `Array.prototype.sort` (stable, comparator-based) is modelled with
  `List.insertionSort` over the total preorder induced by the comparator.
* The module-level id counters (`zoneIdCounter`, `nodeIdCounter`,
  `workloadIdCounter`, `serviceIdCounter`) are threaded explicitly as a
  `Counters` state, so that cross-call behaviour is expressible.
* The kubelet overhead functions (`utils/kubelet.ts`) are not part of the
  repository snapshot; they are kept as an uninterpreted parameter
  `KubeletFn` everywhere, and a calibration-point model from the spec is
  used only to instantiate concrete witnesses/counterexamples.
* Paths on which the TS code would throw a `TypeError` (reading a field of
  `undefined`) are modelled as `none`/abort; they are provably unreachable
  on inputs accepted by validation.
-/

namespace Sizer

/-- JS truthiness of an optional boolean: truthy iff present and `true`. -/
def optTrue (o : Option Bool) : Bool :=
  match o with
  | some b => b
  | none => false

/-- JS `String.prototype.includes`: contiguous substring test. -/
def strContains (s pat : String) : Bool :=
  decide (pat.data <:+: s.data)

/-- JS `String.prototype.toLowerCase` (ASCII suffices for the names used). -/
def lowerStr (s : String) : String :=
  ⟨s.data.map Char.toLower⟩

/-- `Service` (types/Service.ts); fields not read anywhere in the embedded
fragment (`overCommitMode`, `ownerReference`) are omitted. -/
structure Service where
  id : Option Nat
  name : String
  requiredCPU : ℚ
  requiredMemory : ℚ
  limitCPU : Option ℚ
  limitMemory : Option ℚ
  minLimitCPU : Option ℚ
  maxLimitCPU : Option ℚ
  minLimitMemory : Option ℚ
  maxLimitMemory : Option ℚ
  zones : Nat
  runsWith : List Nat
  avoid : List Nat
  deriving Repr, DecidableEq

/-- `ServiceDescriptor` (types/Service.ts): `runsWith`/`avoid` are service
names, resolved to ids during input expansion. -/
structure ServiceDescriptor where
  id : Option Nat
  name : String
  requiredCPU : ℚ
  requiredMemory : ℚ
  limitCPU : Option ℚ
  limitMemory : Option ℚ
  minLimitCPU : Option ℚ
  maxLimitCPU : Option ℚ
  minLimitMemory : Option ℚ
  maxLimitMemory : Option ℚ
  zones : Nat
  runsWith : List String
  avoid : List String
  deriving Repr, DecidableEq

/-- `Workload` (types/Workload.ts); `storageCapacityRequired`, `duplicateOf`
and `allowControlPlane` are never read in the embedded fragment. -/
structure Workload where
  id : Option Nat
  name : String
  count : Nat
  usesMachines : List String
  services : List Nat
  requireControlPlane : Option Bool
  deriving Repr, DecidableEq

/-- `WorkloadDescriptor` (types/Workload.ts). -/
structure WorkloadDescriptor where
  name : String
  count : Nat
  usesMachines : List String
  services : List ServiceDescriptor
  requireControlPlane : Option Bool
  deriving Repr, DecidableEq

/-- `MachineSet` (types/MachineSet.ts is absent from the snapshot; fields are
those read by the embedded fragment). -/
structure MachineSet where
  name : String
  cpu : ℚ
  memory : ℚ
  instanceName : String
  numberOfDisks : Nat
  onlyFor : List String
  allowWorkloadScheduling : Option Bool
  controlPlaneReserved : Option (ℚ × ℚ)
  deriving Repr, DecidableEq

/-- `Node` (types/Node.ts). -/
structure Node where
  id : Nat
  maxDisks : Nat
  cpuUnits : ℚ
  memory : ℚ
  machineSet : String
  services : List Nat
  instanceName : String
  onlyFor : List String
  isControlPlane : Bool
  allowWorkloadScheduling : Option Bool
  controlPlaneReserved : Option (ℚ × ℚ)
  deriving Repr, DecidableEq

/-- `Zone` (types/Zone.ts). -/
structure Zone where
  id : Nat
  nodes : List Nat
  deriving Repr, DecidableEq

/-- The kubelet overhead functions (`utils/kubelet.ts`), kept uninterpreted:
`cpu` maps node cpu capacity to reserved cpu, `mem` maps node memory to
reserved memory. -/
structure KubeletFn where
  cpu : ℚ → ℚ
  mem : ℚ → ℚ

/-- `ResourceRequirement` (utils/common.ts). -/
structure ResourceRequirement where
  totalMem : ℚ
  totalCPU : ℚ
  totalDisks : Nat
  deriving Repr, DecidableEq

/-- `getTotalResourceRequirement` (utils/common.ts, the `multiplyByZone`
argument is never passed in the embedded fragment): left fold accumulating
requests, counting one disk per service whose name contains `Ceph_OSD`. -/
def getTotalResourceRequirement (services : List Service) : ResourceRequirement :=
  services.foldl
    (fun acc service =>
      { totalMem := acc.totalMem + service.requiredMemory
        totalCPU := acc.totalCPU + service.requiredCPU
        totalDisks :=
          acc.totalDisks + (if strContains service.name "Ceph_OSD" then 1 else 0) })
    { totalMem := 0, totalCPU := 0, totalDisks := 0 }

/-- `canNodeSupportRequirements` (utils/common.ts): requests of the candidate
set plus current usage plus kubelet overhead must fit the node (cpu, memory),
and disks must fit `maxDisks`. -/
def canNodeSupportRequirements (k : KubeletFn) (requirements currentUsage : ResourceRequirement)
    (node : Node) : Bool :=
  let kubeletCPU := k.cpu node.cpuUnits
  let kubeletMemory := k.mem node.memory
  !(decide (node.cpuUnits < requirements.totalCPU + currentUsage.totalCPU + kubeletCPU) ||
    decide (node.memory < requirements.totalMem + currentUsage.totalMem + kubeletMemory) ||
    decide (node.maxDisks < requirements.totalDisks + currentUsage.totalDisks))

/-- `updateFirst p f l`: JS `findIndex` + in-place replacement of the first
element satisfying `p` (identity when none does). -/
def updateFirst (p : α → Bool) (f : α → α) : List α → List α
  | [] => []
  | x :: xs => if p x then f x :: xs else x :: updateFirst p f xs

/-- The control-plane service name markers (utils/node.ts). -/
def controlPlaneServiceNames : List String :=
  ["kube-apiserver", "etcd", "kube-controller-manager", "kube-scheduler",
   "cluster-version-operator", "control-plane", "controlplane"]

/-- `isControlPlaneService` (utils/node.ts): case-insensitive substring match
against the marker list. -/
def isControlPlaneService (service : Service) : Bool :=
  controlPlaneServiceNames.any (fun n => strContains (lowerStr service.name) (lowerStr n))

/-- `getServicesInNode` (utils/node.ts): the service objects whose (defined)
id is placed on the node. -/
def getServicesInNode (node : Node) (services : List Service) : List Service :=
  services.filter (fun s =>
    match s.id with
    | some i => node.services.contains i
    | none => false)

/-- `canNodeAddService` (utils/node.ts): id/ownership, `usesMachines`,
control-plane routing, taint, anti-affinity and capacity checks, in the
code's order (note the unconditional `return true` for control-plane
services on control-plane nodes). -/
def canNodeAddService (k : KubeletFn) (node : Node) (candidate : Service)
    (allServices : List Service) (workloads : List Workload)
    (machineSets : List MachineSet) : Bool :=
  match candidate.id with
  | none => false
  | some candidateId =>
    match workloads.find? (fun w => w.services.contains candidateId) with
    | none => false
    | some currentWorkload =>
      if !currentWorkload.usesMachines.isEmpty &&
          !currentWorkload.usesMachines.contains node.machineSet then
        false
      else
        let machineSet := machineSets.find? (fun ms => ms.name == node.machineSet)
        if node.isControlPlane && isControlPlaneService candidate then
          true
        else if node.isControlPlane && !optTrue node.allowWorkloadScheduling &&
            !optTrue (machineSet.bind (·.allowWorkloadScheduling)) then
          false
        else if !node.isControlPlane && optTrue currentWorkload.requireControlPlane then
          false
        else
          let isSchedulableControlPlane :=
            match machineSet with
            | some ms => ms.name == "controlPlane" && ms.allowWorkloadScheduling == some true
            | none => false
          if !isSchedulableControlPlane && !node.onlyFor.isEmpty &&
              !node.onlyFor.contains currentWorkload.name then
            false
          else
            let existingServicesIds := node.services
            let existingServices := getServicesInNode node allServices
            if candidate.avoid.any (fun i => existingServicesIds.contains i) then
              false
            else
              let existingAvoids := (existingServices.map (·.avoid)).flatten
              if existingAvoids.contains candidateId then
                false
              else
                let nodeResourceConsumption := getTotalResourceRequirement existingServices
                let coplacedServices := allServices.filter (fun s =>
                  match s.id with
                  | some i => candidate.runsWith.contains i
                  | none => false)
                let adjustedCandidates := coplacedServices ++ [candidate]
                canNodeSupportRequirements k
                  (getTotalResourceRequirement adjustedCandidates)
                  nodeResourceConsumption node

/-- `getTotalNodeMemoryConsumption` (utils/node.ts). -/
def getTotalNodeMemoryConsumption (node : Node) (services : List Service) : ℚ :=
  (getTotalResourceRequirement (getServicesInNode node services)).totalMem

/-- `getMaxZones` (utils/node.ts): `_.max(zones) || 1` (so `0`/absent maps
to 1). -/
def getMaxZones (services : List Service) : Nat :=
  match (services.map (·.zones)).max? with
  | none => 1
  | some m => if m == 0 then 1 else m

/-- A zone paired with its count of nodes able to host the bundle
(the `{zone, freeNodes}` records built by `sortBestZones`). -/
structure RankedZone where
  zone : Zone
  freeNodes : Nat
  deriving Repr, DecidableEq

/-- Number of nodes of a zone that could support `requirements` on top of
their current usage (the inner filter of `sortBestZones`, utils/node.ts). -/
def capableNodesInZone (k : KubeletFn) (zone : Zone) (nodes : List Node)
    (allServices : List Service) (requirements : ResourceRequirement) : Nat :=
  ((nodes.filter (fun node => zone.nodes.contains node.id)).filter (fun node =>
    let servicesInNode := getServicesInNode node allServices
    canNodeSupportRequirements k requirements
      (getTotalResourceRequirement servicesInNode) node)).length

/-- The `sortBestZones` comparator as a total preorder: `a` may precede `b`
iff `compare(a,b) = (b.freeNodes - a.freeNodes, tie: b.zone.id - a.zone.id)`
is `≤ 0` — descending free-node count, ties by descending zone id. -/
def zoneRankLE (a b : RankedZone) : Bool :=
  decide (b.freeNodes < a.freeNodes) ||
    (decide (b.freeNodes = a.freeNodes) && decide (b.zone.id ≤ a.zone.id))

/-- `sortBestZones` (utils/node.ts): keep zones with at least one capable
node, sort descending by capable-node count (ties: descending id), return
the zones. -/
def sortBestZones (k : KubeletFn) (zones : List Zone) (nodes : List Node)
    (allServices workload : List Service) : List Zone :=
  let requirements := getTotalResourceRequirement workload
  let suitableZones := zones.filterMap (fun zone =>
    if 0 < capableNodesInZone k zone nodes allServices requirements then
      some (⟨zone, capableNodesInZone k zone nodes allServices requirements⟩ : RankedZone)
    else none)
  (List.insertionSort (fun a b => zoneRankLE a b = true) suitableZones).map (·.zone)

/-- `getMachineSetForWorkload` (utils/service.ts): dedicated `onlyFor` match,
else first of `usesMachines` (which the TS code casts unsoundly — `none`
models the `undefined` that would crash `getNode`), else first
non-control-plane MachineSet, else the first MachineSet. -/
def getMachineSetForWorkload (workload : Workload) (machineSets : List MachineSet) :
    Option MachineSet :=
  match machineSets.find? (fun ms => ms.onlyFor.contains workload.name) with
  | some dedicatedMS => some dedicatedMS
  | none =>
    if !workload.usesMachines.isEmpty then
      machineSets.find? (fun ms => workload.usesMachines.contains ms.name)
    else
      match machineSets.find? (fun ms =>
          ms.name != "controlPlane" && ms.name != "control-plane") with
      | some defaultMS => some defaultMS
      | none => machineSets.head?

/-- `getRequiredZones` (utils/service.ts). -/
def getRequiredZones (service : Service) (zones : List Zone) : Nat :=
  if zones.length < service.zones then service.zones - zones.length else 0

/-- The `sortNodesWithLeastConsumption` comparator as a total preorder:
ascending total memory consumption. -/
def nodeConsLE (services : List Service) (a b : Node) : Bool :=
  decide (getTotalNodeMemoryConsumption a services ≤ getTotalNodeMemoryConsumption b services)

/-- `sortNodesWithLeastConsumption` (utils/service.ts): the nodes on which
every bundle member passes `canNodeAddService`, sorted by ascending memory
consumption. -/
def sortNodesWithLeastConsumption (k : KubeletFn) (nodes : List Node)
    (services candidateServices : List Service) (workloads : List Workload)
    (machineSets : List MachineSet) : List Node :=
  let viableNodes := nodes.filter (fun node =>
    candidateServices.all (fun candidate =>
      canNodeAddService k node candidate services workloads machineSets))
  List.insertionSort (fun a b => nodeConsLE services a b = true) viableNodes

/-- `getNode` (utils/service.ts): build a node from a MachineSet, assigning
the next node id (`++nodeIdCounter`); control-plane flags and reservation
default from the MachineSet name. -/
def getNode (machineSet : MachineSet) (nodeIdCounter : Nat) : Node × Nat :=
  let newId := nodeIdCounter + 1
  ({ id := newId
     maxDisks := machineSet.numberOfDisks
     cpuUnits := machineSet.cpu
     memory := machineSet.memory
     machineSet := machineSet.name
     services := []
     instanceName := machineSet.instanceName
     onlyFor := machineSet.onlyFor
     isControlPlane := machineSet.name == "controlPlane"
     allowWorkloadScheduling :=
       match machineSet.allowWorkloadScheduling with
       | some b => some b
       | none => if machineSet.name == "controlPlane" then some false else none
     controlPlaneReserved :=
       match machineSet.controlPlaneReserved with
       | some r => some r
       | none => if machineSet.name == "controlPlane" then some (2, 4) else none },
   newId)

/-- `addServiceToZone` (utils/service.ts): place the bundle on the viable
node of the zone with least memory consumption, else create a new node from
`getMachineSetForWorkload`; when no workload owns the bundle head, return
the state unchanged (the silent no-op path). `none` models the TS crash
when `getMachineSetForWorkload` yields `undefined`. -/
def addServiceToZone (k : KubeletFn) (zone : Zone) (nodes : List Node)
    (services candidateServices : List Service) (workloads : List Workload)
    (machineSets : List MachineSet) (nodeIdCounter : Nat) :
    Option (List Node × Zone × Nat) :=
  let nodesInZone := nodes.filter (fun node => zone.nodes.contains node.id)
  let sortedViableNodes :=
    sortNodesWithLeastConsumption k nodesInZone services candidateServices workloads machineSets
  match sortedViableNodes.head? with
  | some nodeToRun =>
    let servicesToAdd := candidateServices.filterMap (·.id)
    let updatedNodes := updateFirst (fun n => n.id == nodeToRun.id)
      (fun n => { n with services := n.services ++ servicesToAdd }) nodes
    some (updatedNodes, zone, nodeIdCounter)
  | none =>
    let firstId : Option Nat := candidateServices.head?.bind (·.id)
    match workloads.find? (fun wl =>
        match firstId with
        | some i => wl.services.contains i
        | none => false) with
    | none => some (nodes, zone, nodeIdCounter)
    | some workload =>
      match getMachineSetForWorkload workload machineSets with
      | none => none
      | some ms =>
        let (node0, ctr') := getNode ms nodeIdCounter
        let node := { node0 with services := candidateServices.filterMap (·.id) }
        some (nodes ++ [node], { zone with nodes := zone.nodes ++ [node.id] }, ctr')

/-- `getCoplacedServices` (utils/service.ts): the candidate plus the services
of the list whose id appears in the candidate's `runsWith` (one hop, in the
candidate's out-direction only). -/
def getCoplacedServices (candidateService : Service) (services : List Service) :
    List Service :=
  candidateService :: services.filter (fun service =>
    (match service.id with
     | some i => candidateService.runsWith.contains i
     | none => false) &&
    service.id != candidateService.id)

/-- Recursion of `getAllCoplacedServices` (utils/service.ts): walk the
service list, skipping already-marked ids; each unmarked service heads a
group of itself plus the resolved `runsWith` targets, and marks its own id
together with every id in its `runsWith`. -/
def getAllCoplacedServicesGo (services : List Service) :
    List Service → List Nat → List (List Service)
  | [], _ => []
  | service :: rest, scheduledIDs =>
    match service.id with
    | some i =>
      if scheduledIDs.contains i then
        getAllCoplacedServicesGo services rest scheduledIDs
      else
        let coRunners := service :: service.runsWith.filterMap (fun rid =>
          services.find? (fun s => s.id == some rid))
        coRunners :: getAllCoplacedServicesGo services rest (scheduledIDs ++ i :: service.runsWith)
    | none => getAllCoplacedServicesGo services rest scheduledIDs

/-- `getAllCoplacedServices` (utils/service.ts). -/
def getAllCoplacedServices (services : List Service) : List (List Service) :=
  getAllCoplacedServicesGo services services []

/-- The `sortServices` comparator (utils/service.ts) as a total preorder:
descending by `totalMem + totalCPU` of the group. -/
def bundleWeightGE (a b : List Service) : Bool :=
  decide ((getTotalResourceRequirement b).totalMem + (getTotalResourceRequirement b).totalCPU ≤
    (getTotalResourceRequirement a).totalMem + (getTotalResourceRequirement a).totalCPU)

/-- `getWorkloadFromDescriptors` (utils/workload.ts): assign consecutive
fresh service ids, resolve `runsWith`/`avoid` names to ids within the same
descriptor, and build the `Workload` with a fresh workload id. Returns the
services, the workload, and the advanced workload/service id counters. -/
def getWorkloadFromDescriptors (workload : WorkloadDescriptor)
    (workloadIdCounter serviceIdCounter : Nat) :
    List Service × Workload × Nat × Nat :=
  let serviceDescriptors := workload.services.enum.map (fun p =>
    { p.2 with id := some (serviceIdCounter + p.1 + 1) })
  let serviceObjects : List Service := serviceDescriptors.map (fun curr =>
    { id := curr.id
      name := curr.name
      requiredCPU := curr.requiredCPU
      requiredMemory := curr.requiredMemory
      limitCPU := curr.limitCPU
      limitMemory := curr.limitMemory
      minLimitCPU := curr.minLimitCPU
      maxLimitCPU := curr.maxLimitCPU
      minLimitMemory := curr.minLimitMemory
      maxLimitMemory := curr.maxLimitMemory
      zones := curr.zones
      avoid := curr.avoid.filterMap (fun item =>
        (serviceDescriptors.find? (fun so => so.name == item)).bind (·.id))
      runsWith := curr.runsWith.filterMap (fun item =>
        (serviceDescriptors.find? (fun so => so.name == item)).bind (·.id)) })
  let serviceIDs := serviceObjects.filterMap (·.id)
  let updatedWorkload : Workload :=
    { id := some (workloadIdCounter + 1)
      name := workload.name
      count := workload.count
      usesMachines := workload.usesMachines
      services := serviceIDs
      requireControlPlane := workload.requireControlPlane }
  (serviceObjects, updatedWorkload, workloadIdCounter + 1,
    serviceIdCounter + workload.services.length)

/-- `getWorkloadServices` (utils/workload.ts): the service objects whose
(defined) id belongs to the workload — the filter repeated throughout the
code. -/
def getWorkloadServices (workload : Workload) (services : List Service) : List Service :=
  services.filter (fun s =>
    match s.id with
    | some i => workload.services.contains i
    | none => false)

/-- `areServicesSchedulable` (utils/workload.ts): the group's totals plus
kubelet overhead fit a single node of the MachineSet. -/
def areServicesSchedulable (k : KubeletFn) (services : List Service)
    (machineSet : MachineSet) : Bool :=
  let t := getTotalResourceRequirement services
  decide (t.totalMem + k.mem machineSet.memory ≤ machineSet.memory) &&
  decide (t.totalCPU + k.cpu machineSet.cpu ≤ machineSet.cpu) &&
  decide (t.totalDisks ≤ machineSet.numberOfDisks)

/-- `isWorkloadSchedulable` (utils/workload.ts): the `usesMachines` branch,
the dedicated `onlyFor` branch, then the general branch excluding
control-plane MachineSets without `allowWorkloadScheduling = true`; the
sorted coplaced groups must all fit the retained MachineSet. -/
def isWorkloadSchedulable (k : KubeletFn) (services : List Service)
    (machineSets : List MachineSet) (workload : Workload) :
    Bool × List MachineSet :=
  let serviceObjects := getWorkloadServices workload services
  let coplacedServices := getAllCoplacedServices serviceObjects
  let sortedServices :=
    List.insertionSort (fun a b => bundleWeightGE a b = true) coplacedServices
  if !workload.usesMachines.isEmpty then
    let preferredMS := machineSets.filter (fun ms =>
      workload.usesMachines.contains ms.name)
    let canRun := preferredMS.filter (fun ms =>
      sortedServices.all (fun ser => areServicesSchedulable k ser ms))
    if !canRun.isEmpty then (true, canRun) else (false, [])
  else
    let dedicatedMS := machineSets.filter (fun ms => ms.onlyFor.contains workload.name)
    let dedicatedRun := dedicatedMS.filter (fun ms =>
      sortedServices.all (fun ser => areServicesSchedulable k ser ms))
    if !dedicatedMS.isEmpty && !dedicatedRun.isEmpty then (true, dedicatedRun)
    else
      let canRun := machineSets.filter (fun ms =>
        if (ms.name == "controlPlane" || ms.name == "control-plane") &&
            ms.allowWorkloadScheduling != some true then false
        else
          (ms.onlyFor.isEmpty || ms.onlyFor.contains workload.name) &&
          sortedServices.all (fun ser => areServicesSchedulable k ser ms))
      if !canRun.isEmpty then (true, canRun) else (false, [])

/-- `createZones` (scheduler/workloadScheduler.ts): fresh zones with ids
continuing the zone id counter. -/
def createZones (requiredZones zoneIdCounter : Nat) : List Zone × Nat :=
  ((List.range requiredZones).map (fun j => ({ id := zoneIdCounter + j + 1, nodes := [] } : Zone)),
   zoneIdCounter + requiredZones)

/-- Comparator of the scheduler's fallback `sort((a, b) => b.id - a.id)`:
descending zone id. -/
def zoneIdGE (a b : Zone) : Bool :=
  decide (b.id ≤ a.id)

/-- The zone-selection step of `workloadScheduler` (lines 79–105): filter out
used zones, rank with `sortBestZones` and `pop()` the last element; if none,
scan for the first unused zone; if still none, clear the used set and take
the highest-id zone. Returns the chosen zone (`none` only when there are no
zones at all) and the updated used-zone list. -/
def selectZone (k : KubeletFn) (zones : List Zone) (nodes : List Node)
    (services bundle : List Service) (usedZonesId : List Nat) :
    Option Zone × List Nat :=
  let filteredZones := zones.filter (fun z => !usedZonesId.contains z.id)
  let suitableZones := sortBestZones k filteredZones nodes services bundle
  match suitableZones.getLast? with
  | some bestZone => (some bestZone, usedZonesId ++ [bestZone.id])
  | none =>
    match zones.find? (fun z => !usedZonesId.contains z.id) with
    | some bestZone => (some bestZone, usedZonesId ++ [bestZone.id])
    | none =>
      match (List.insertionSort (fun a b => zoneIdGE a b = true) zones).head? with
      | some bestZone => (some bestZone, [bestZone.id])
      | none => (none, [])

/-- Mutable state threaded through the scheduler: zones, nodes, the shared
used-zone id list, and the zone/node id counters. -/
structure SizerState where
  zones : List Zone
  nodes : List Node
  usedZonesId : List Nat
  zoneIdCounter : Nat
  nodeIdCounter : Nat
  deriving Repr, DecidableEq

/-- One iteration of the scheduler's `_.times` loop: select a zone, place the
bundle there with `addServiceToZone`, and write the returned zone back at
its id's position. `none` models the TS crashes (no zones at all, or an
`undefined` MachineSet). -/
def placeBundleOnce (k : KubeletFn) (workload : Workload)
    (services : List Service) (machineSets : List MachineSet)
    (bundle : List Service) (st : SizerState) : Option SizerState :=
  match selectZone k st.zones st.nodes services bundle st.usedZonesId with
  | (none, _) => none
  | (some bestZone, used') =>
    match addServiceToZone k bestZone st.nodes services bundle [workload]
        machineSets st.nodeIdCounter with
    | none => none
    | some (nodes', zone', nodeCtr') =>
      some { st with
        nodes := nodes'
        zones := updateFirst (fun z => z.id == zone'.id) (fun _ => zone') st.zones
        usedZonesId := used'
        nodeIdCounter := nodeCtr' }

/-- `scheduleInZones`-fold: run `placeBundleOnce` the given number of times. -/
def placeBundleTimes (k : KubeletFn) (workload : Workload)
    (services : List Service) (machineSets : List MachineSet)
    (bundle : List Service) : Nat → SizerState → Option SizerState
  | 0, st => some st
  | n + 1, st =>
    (placeBundleOnce k workload services machineSets bundle st).bind
      (placeBundleTimes k workload services machineSets bundle n)

/-- One iteration of the scheduler's walk over the workload's services:
skip already-scheduled ids, build the bundle from the not-yet-scheduled
services, place it `getMaxZones bundle` times, then mark all members. -/
def scheduleCandidate (k : KubeletFn) (workload : Workload)
    (serviceObjects services : List Service) (machineSets : List MachineSet)
    (stp : SizerState × List Nat) (candidateService : Service) :
    Option (SizerState × List Nat) :=
  let (st, scheduledServiceIDs) := stp
  match candidateService.id with
  | none => some (st, scheduledServiceIDs)
  | some cid =>
    if scheduledServiceIDs.contains cid then some (st, scheduledServiceIDs)
    else
      let bundle := getCoplacedServices candidateService (serviceObjects.filter (fun s =>
        match s.id with
        | some i => !scheduledServiceIDs.contains i
        | none => false))
      if bundle.isEmpty then some (st, scheduledServiceIDs)
      else
        let scheduleInZones := getMaxZones bundle
        (placeBundleTimes k workload services machineSets bundle scheduleInZones st).map
          (fun st' => (st', scheduledServiceIDs ++ bundle.filterMap (·.id)))

/-- `workloadScheduler` (scheduler/workloadScheduler.ts): top up zones to the
workload's maximum zone demand, then walk the workload's services placing
each unscheduled bundle. -/
def workloadScheduler (k : KubeletFn) (workload : Workload)
    (services : List Service) (machineSets : List MachineSet)
    (st : SizerState) : Option SizerState :=
  let serviceObjects := getWorkloadServices workload services
  let maxZonesRequired :=
    match (serviceObjects.map (·.zones)).max? with
    | none => 1
    | some m => if m == 0 then 1 else m
  let st0 :=
    if st.zones.length < maxZonesRequired then
      let (zoneObjects, zc) :=
        createZones (maxZonesRequired - st.zones.length) st.zoneIdCounter
      { st with zones := st.zones ++ zoneObjects, zoneIdCounter := zc }
    else st
  (serviceObjects.foldlM
    (fun stp cand => scheduleCandidate k workload serviceObjects services machineSets stp cand)
    (st0, ([] : List Nat))).map (·.1)

/-- The data the `Error` thrown by `validateWorkloadsCanSchedule`
(core/ClusterSizer.ts) carries: the interpolated workload name and minima,
plus the full message text exactly as the code concatenates it. -/
structure NotSchedulableError where
  workloadName : String
  minRequiredCPU : ℤ
  minRequiredMemory : ℤ
  message : String
  deriving Repr, DecidableEq

/-- Failures that abort a `size` call: the schedulability error, or a TS
runtime crash (reading a field of `undefined`). -/
inductive SizeError where
  | notSchedulable (e : NotSchedulableError)
  | crash
  deriving Repr, DecidableEq

/-- The target-MachineSet selection of `validateWorkloadsCanSchedule`
(core/ClusterSizer.ts lines 112–118): the first MachineSet of
`usesMachines` when that is non-empty (possibly none), else the first
non-control-plane MachineSet compatible with the workload's name, falling
back to the first MachineSet overall. -/
def targetMachineSetFor (workload : Workload) (machineSets : List MachineSet) :
    Option MachineSet :=
  if !workload.usesMachines.isEmpty then
    machineSets.find? (fun ms => workload.usesMachines.contains ms.name)
  else
    match machineSets.find? (fun ms =>
        ms.name != "controlPlane" && ms.name != "control-plane" &&
        (ms.onlyFor.isEmpty || ms.onlyFor.contains workload.name)) with
    | some ms => some ms
    | none => machineSets.head?

deriving instance DecidableEq for Except

/-- `validateWorkloadsCanSchedule` (core/ClusterSizer.ts): the first workload
failing `isWorkloadSchedulable` produces the error; the minima are computed
from the whole workload's request totals plus the kubelet overhead of the
target MachineSet, rounded up to multiples of 2 (cpu, capped 200) and 4
(memory, capped 512). The thrown message interpolates only the workload
name and the two minima. -/
def validateWorkloadsCanSchedule (k : KubeletFn) (workloads : List Workload)
    (services : List Service) (machineSets : List MachineSet) :
    Option NotSchedulableError :=
  workloads.findSome? (fun workload =>
    let checked := isWorkloadSchedulable k services machineSets workload
    if checked.1 then none
    else
      let targetMachineSet := targetMachineSetFor workload machineSets
      let workloadServices := getWorkloadServices workload services
      let totalCPU := (workloadServices.map (·.requiredCPU)).sum
      let totalMemory := (workloadServices.map (·.requiredMemory)).sum
      let kubeletCPU := k.cpu ((targetMachineSet.map (·.cpu)).getD 0)
      let kubeletMemory := k.mem ((targetMachineSet.map (·.memory)).getD 0)
      let totalRequiredCPU := totalCPU + kubeletCPU
      let totalRequiredMemory := totalMemory + kubeletMemory
      let minRequiredCPU : ℤ := min 200 (⌈totalRequiredCPU / 2⌉ * 2)
      let minRequiredMemory : ℤ := min 512 (⌈totalRequiredMemory / 4⌉ * 4)
      some
        { workloadName := workload.name
          minRequiredCPU := minRequiredCPU
          minRequiredMemory := minRequiredMemory
          message :=
            "Workload \"" ++ workload.name ++ "\" is not schedulable. " ++
            "All available MachineSets are too small to run this workload. " ++
            "Minimum required: at least " ++ toString minRequiredCPU ++
            " CPU and " ++ toString minRequiredMemory ++ " GB memory." })

/-- The module-level id counters (`zoneIdCounter` in workloadScheduler.ts,
`nodeIdCounter` in service.ts, `workloadIdCounter`/`serviceIdCounter` in
workload.ts), threaded explicitly. -/
structure Counters where
  zoneId : Nat
  nodeId : Nat
  workloadId : Nat
  serviceId : Nat
  deriving Repr, DecidableEq

/-- The counter state of a fresh process (all module counters start at 0). -/
def Counters.fresh : Counters := ⟨0, 0, 0, 0⟩

/-- The descriptor-expansion loop of `ClusterSizer.size`: rewrite each inner
service's `zones` to `count` when `count > 1`, then run
`getWorkloadFromDescriptors`, accumulating all workloads and services. -/
def expandWorkloads (workloads : List WorkloadDescriptor) (c : Counters) :
    List Workload × List Service × Counters :=
  workloads.foldl
    (fun acc workloadDesc =>
      let adjustedWorkloadDesc :=
        if 1 < workloadDesc.count then
          { workloadDesc with
            services := workloadDesc.services.map (fun s =>
              { s with zones := workloadDesc.count }) }
        else workloadDesc
      let expanded := getWorkloadFromDescriptors adjustedWorkloadDesc
        acc.2.2.workloadId acc.2.2.serviceId
      (acc.1 ++ [expanded.2.1], acc.2.1 ++ expanded.1,
        { acc.2.2 with workloadId := expanded.2.2.1, serviceId := expanded.2.2.2 }))
    (([] : List Workload), ([] : List Service), c)

/-- `ClusterSizing` (core/ClusterSizer.ts). -/
structure ClusterSizing where
  nodeCount : Nat
  zones : Nat
  totalCPU : ℚ
  totalMemory : ℚ
  nodes : List Node
  zoneDetails : List Zone
  services : List Service
  deriving Repr, DecidableEq

/-- `ClusterSizer.size` (core/ClusterSizer.ts), with the MachineSet list
already resolved (the platform-default branch only substitutes a singleton
catalog MachineSet for `availableMachineSets`): expand descriptors,
validate, schedule each workload threading `(zones, nodes, usedZonesId)`,
and assemble the summary. The final counter state is returned alongside so
that repeated in-process calls are expressible. -/
def size (k : KubeletFn) (workloads : List WorkloadDescriptor)
    (availableMachineSets : List MachineSet) (c : Counters) :
    Except SizeError (ClusterSizing × Counters) :=
  let expanded := expandWorkloads workloads c
  let allWorkloads := expanded.1
  let allServices := expanded.2.1
  let c1 := expanded.2.2
  match validateWorkloadsCanSchedule k allWorkloads allServices availableMachineSets with
  | some e => .error (.notSchedulable e)
  | none =>
    let st0 : SizerState := ⟨[], [], [], c1.zoneId, c1.nodeId⟩
    match allWorkloads.foldlM
        (fun st workload => workloadScheduler k workload allServices availableMachineSets st)
        st0 with
    | none => .error .crash
    | some st =>
      .ok
        ({ nodeCount := st.nodes.length
           zones := st.zones.length
           totalCPU := (st.nodes.map (·.cpuUnits)).sum
           totalMemory := (st.nodes.map (·.memory)).sum
           nodes := st.nodes
           zoneDetails := st.zones
           services := allServices },
         { c1 with zoneId := st.zoneIdCounter, nodeId := st.nodeIdCounter })

/-- JS truthiness of an optional number (`x ||`-style tests): truthy iff
present and nonzero. -/
def qTruthy (o : Option ℚ) : Bool :=
  match o with
  | some x => x != 0
  | none => false

/-- `number | ResourceRange` (types/common.ts): a scalar or a `{min, max}`
range. -/
inductive NumOrRange where
  | num (value : ℚ)
  | range (lo hi : ℚ)
  deriving Repr, DecidableEq

/-- `getMaxValue` (src/utils/common.ts): a scalar is its own maximum, a
range contributes its upper bound. -/
def NumOrRange.maxValue : NumOrRange → ℚ
  | num v => v
  | range _ hi => hi

/-- Risk level of over-commit metrics. -/
inductive RiskLevel where
  | none
  | low
  | medium
  | high
  deriving Repr, DecidableEq

/-- `NodeOverCommitMetrics` (types/common.ts); the code's field names
`cpuOverCommitRatio` / `memoryOverCommitRatio` are shortened to
`cpuOverCommit` / `memoryOverCommit` here. -/
structure NodeOverCommitMetrics where
  requestedCPU : ℚ
  requestedMemory : ℚ
  limitCPU : NumOrRange
  limitMemory : NumOrRange
  cpuOverCommit : NumOrRange
  memoryOverCommit : NumOrRange
  riskLevel : RiskLevel
  deriving Repr, DecidableEq

/-- `calculateNodeOverCommit` (src/utils/common.ts, the range-aware version):
requests, min/max limit sums with `?? limit ?? required` fallbacks, ratios
against allocatable-after-kubelet, ranges exactly when some service has a
truthy dynamic limit field, and the risk level from the worst-case (max)
ratio. -/
def calculateNodeOverCommit (k : KubeletFn) (node : Node)
    (services : List Service) : NodeOverCommitMetrics :=
  let kubeletCPU := k.cpu node.cpuUnits
  let kubeletMemory := k.mem node.memory
  let availableCPU := node.cpuUnits - kubeletCPU
  let availableMemory := node.memory - kubeletMemory
  let requestedCPU := (services.map (·.requiredCPU)).sum
  let requestedMemory := (services.map (·.requiredMemory)).sum
  let hasDynamicLimits := services.any (fun s =>
    qTruthy s.minLimitCPU || qTruthy s.maxLimitCPU ||
    qTruthy s.minLimitMemory || qTruthy s.maxLimitMemory)
  let minLimitCPU := (services.map (fun s =>
    s.minLimitCPU.getD (s.limitCPU.getD s.requiredCPU))).sum
  let maxLimitCPU := (services.map (fun s =>
    s.maxLimitCPU.getD (s.limitCPU.getD s.requiredCPU))).sum
  let minLimitMemory := (services.map (fun s =>
    s.minLimitMemory.getD (s.limitMemory.getD s.requiredMemory))).sum
  let maxLimitMemory := (services.map (fun s =>
    s.maxLimitMemory.getD (s.limitMemory.getD s.requiredMemory))).sum
  let limitCPU := if hasDynamicLimits then .range minLimitCPU maxLimitCPU
    else NumOrRange.num maxLimitCPU
  let limitMemory := if hasDynamicLimits then .range minLimitMemory maxLimitMemory
    else NumOrRange.num maxLimitMemory
  let minCpuRatio := if 0 < availableCPU then minLimitCPU / availableCPU else 1
  let maxCpuRatio := if 0 < availableCPU then maxLimitCPU / availableCPU else 1
  let minMemoryRatio := if 0 < availableMemory then minLimitMemory / availableMemory else 1
  let maxMemoryRatio := if 0 < availableMemory then maxLimitMemory / availableMemory else 1
  let cpuOverCommit := if hasDynamicLimits then .range minCpuRatio maxCpuRatio
    else NumOrRange.num maxCpuRatio
  let memoryOverCommit := if hasDynamicLimits then .range minMemoryRatio maxMemoryRatio
    else NumOrRange.num maxMemoryRatio
  let maxRatio := max maxCpuRatio maxMemoryRatio
  let riskLevel : RiskLevel :=
    if maxRatio ≤ 1 then .none
    else if maxRatio ≤ 2 then .low
    else if maxRatio ≤ 4 then .medium
    else .high
  { requestedCPU := requestedCPU
    requestedMemory := requestedMemory
    limitCPU := limitCPU
    limitMemory := limitMemory
    cpuOverCommit := cpuOverCommit
    memoryOverCommit := memoryOverCommit
    riskLevel := riskLevel }

/-- `ClusterOverCommitMetrics` (types/common.ts); the code's
`overCommitRatio.cpu` / `overCommitRatio.memory` are `overCommitCpu` /
`overCommitMemory` here. -/
structure ClusterOverCommitMetrics where
  totalRequestsCpu : ℚ
  totalRequestsMemory : ℚ
  totalLimitsCpu : NumOrRange
  totalLimitsMemory : NumOrRange
  totalAllocatableCpu : ℚ
  totalAllocatableMemory : ℚ
  overCommitCpu : NumOrRange
  overCommitMemory : NumOrRange
  riskLevel : RiskLevel
  deriving Repr, DecidableEq

/-- Placement count of a service id: how many times it appears across all
`node.services` lists (the `placementCounts` map of
`calculateClusterOverCommit`). -/
def placementCount (nodes : List Node) (serviceId : Nat) : Nat :=
  ((nodes.map (·.services)).flatten).count serviceId

/-- `calculateClusterOverCommit` (src/utils/common.ts, the range-aware
version): totals weighted by per-service placement count, against total
allocatable after kubelet, with the same ranges-vs-scalars rule and the
same risk thresholds on the worst-case (max) ratio. -/
def calculateClusterOverCommit (k : KubeletFn) (nodes : List Node)
    (services : List Service) : ClusterOverCommitMetrics :=
  let totalAllocatableCpu := (nodes.map (fun n => n.cpuUnits - k.cpu n.cpuUnits)).sum
  let totalAllocatableMemory := (nodes.map (fun n => n.memory - k.mem n.memory)).sum
  let placements := fun (s : Service) =>
    match s.id with
    | some i => placementCount nodes i
    | none => 0
  let hasDynamicLimits := services.any (fun s =>
    qTruthy s.minLimitCPU || qTruthy s.maxLimitCPU ||
    qTruthy s.minLimitMemory || qTruthy s.maxLimitMemory)
  let totalRequestsCpu := (services.map (fun s => s.requiredCPU * placements s)).sum
  let totalRequestsMemory := (services.map (fun s => s.requiredMemory * placements s)).sum
  let minTotalLimitCPU := (services.map (fun s =>
    s.minLimitCPU.getD (s.limitCPU.getD s.requiredCPU) * placements s)).sum
  let maxTotalLimitCPU := (services.map (fun s =>
    s.maxLimitCPU.getD (s.limitCPU.getD s.requiredCPU) * placements s)).sum
  let minTotalLimitMemory := (services.map (fun s =>
    s.minLimitMemory.getD (s.limitMemory.getD s.requiredMemory) * placements s)).sum
  let maxTotalLimitMemory := (services.map (fun s =>
    s.maxLimitMemory.getD (s.limitMemory.getD s.requiredMemory) * placements s)).sum
  let totalLimitsCpu := if hasDynamicLimits then .range minTotalLimitCPU maxTotalLimitCPU
    else NumOrRange.num maxTotalLimitCPU
  let totalLimitsMemory := if hasDynamicLimits then .range minTotalLimitMemory maxTotalLimitMemory
    else NumOrRange.num maxTotalLimitMemory
  let minCpuRatio := if 0 < totalAllocatableCpu then minTotalLimitCPU / totalAllocatableCpu else 1
  let maxCpuRatio := if 0 < totalAllocatableCpu then maxTotalLimitCPU / totalAllocatableCpu else 1
  let minMemoryRatio :=
    if 0 < totalAllocatableMemory then minTotalLimitMemory / totalAllocatableMemory else 1
  let maxMemoryRatio :=
    if 0 < totalAllocatableMemory then maxTotalLimitMemory / totalAllocatableMemory else 1
  let overCommitCpu := if hasDynamicLimits then .range minCpuRatio maxCpuRatio
    else NumOrRange.num maxCpuRatio
  let overCommitMemory := if hasDynamicLimits then .range minMemoryRatio maxMemoryRatio
    else NumOrRange.num maxMemoryRatio
  let maxRatio := max maxCpuRatio maxMemoryRatio
  let riskLevel : RiskLevel :=
    if maxRatio ≤ 1 then .none
    else if maxRatio ≤ 2 then .low
    else if maxRatio ≤ 4 then .medium
    else .high
  { totalRequestsCpu := totalRequestsCpu
    totalRequestsMemory := totalRequestsMemory
    totalLimitsCpu := totalLimitsCpu
    totalLimitsMemory := totalLimitsMemory
    totalAllocatableCpu := totalAllocatableCpu
    totalAllocatableMemory := totalAllocatableMemory
    overCommitCpu := overCommitCpu
    overCommitMemory := overCommitMemory
    riskLevel := riskLevel }

/-- Modelled from the spec: the kubelet overhead functions of
`utils/kubelet.ts` are not in the repository snapshot; the spec (§6.2) fixes
them only at the calibration points `(16 cpu, 64 GB) ↦ (0.11, 5.23)` and
`(8 cpu, 32 GB) ↦ (0.09, 1.77)` and requires positive allocatable. This
model returns the calibration values at those points and 0 elsewhere;
concrete witnesses and counterexamples only evaluate it at the calibration
points or at sizes where the spec leaves the overhead unconstrained. -/
def kubeletSpecModel : KubeletFn where
  cpu := fun c => if c = 16 then 11 / 100 else if c = 8 then 9 / 100 else 0
  mem := fun m => if m = 64 then 523 / 100 else if m = 32 then 177 / 100 else 0

/-! ## Claim-level predicates -/

/-- The capacity invariant of spec §8.1 for one node: requests of the
services placed on the node plus kubelet overhead fit the node's cpu and
memory, and the `Ceph_OSD` count fits `maxDisks`. -/
def nodeCapacityOK (k : KubeletFn) (allServices : List Service) (n : Node) : Prop :=
  let t := getTotalResourceRequirement (getServicesInNode n allServices)
  t.totalCPU + k.cpu n.cpuUnits ≤ n.cpuUnits ∧
  t.totalMem + k.mem n.memory ≤ n.memory ∧
  t.totalDisks ≤ n.maxDisks

instance (k : KubeletFn) (allServices : List Service) (n : Node) :
    Decidable (nodeCapacityOK k allServices n) := by
  unfold nodeCapacityOK; infer_instance

/-- The anti-affinity invariant of spec §8.2 for one node: no ordered pair of
distinct services placed on the node has the second's id in the first's
`avoid`. -/
def nodeAvoidOK (allServices : List Service) (n : Node) : Prop :=
  ∀ a ∈ getServicesInNode n allServices, ∀ b ∈ getServicesInNode n allServices,
    a ≠ b → ∀ i, b.id = some i → i ∉ a.avoid

instance (allServices : List Service) (n : Node) :
    Decidable (nodeAvoidOK allServices n) := by
  unfold nodeAvoidOK; infer_instance

/-- Number of distinct zones whose nodes host the given service id. -/
def zonesHosting (zones : List Zone) (nodes : List Node) (serviceId : Nat) : Nat :=
  (zones.filter (fun z => nodes.any (fun n =>
    z.nodes.contains n.id && n.services.contains serviceId))).length

/-- Projection of a `size` result to its NotSchedulable error, if any. -/
def sizeErrorOf (r : Except SizeError (ClusterSizing × Counters)) :
    Option NotSchedulableError :=
  match r with
  | .error (.notSchedulable e) => some e
  | _ => none

/-- Modelled from the spec (§4.3, for refinement comparison only): the
symmetric closure of `runsWith` as an adjacency test between two services. -/
def runsWithAdj (a b : Service) : Bool :=
  (match b.id with
   | some i => a.runsWith.contains i
   | none => false) ||
  (match a.id with
   | some i => b.runsWith.contains i
   | none => false)

/-- Modelled from the spec (§4.3, for refinement comparison only): one
closure step — add every service of the list adjacent to the accumulated
component. -/
def specComponentStep (ss : List Service) (acc : List Service) : List Service :=
  acc ++ ss.filter (fun t => !acc.contains t && acc.any (fun a => runsWithAdj a t))

/-- Modelled from the spec (§4.3, for refinement comparison only): the
connected component of `s` in the symmetric closure of `runsWith`
restricted to `ss`, by saturating the closure step. -/
def specComponent (s : Service) (ss : List Service) : List Service :=
  (specComponentStep ss)^[ss.length] [s]

/-! ## Concrete fixtures for witnesses and counterexamples -/

/-- Service constructor helper (no limits). -/
def mkSvc (i : Option Nat) (nm : String) (cpu mem : ℚ) (z : Nat)
    (rw av : List Nat) : Service :=
  ⟨i, nm, cpu, mem, none, none, none, none, none, none, z, rw, av⟩

/-- ServiceDescriptor constructor helper (no limits). -/
def mkDesc (nm : String) (cpu mem : ℚ) (z : Nat) (rw av : List String) :
    ServiceDescriptor :=
  ⟨none, nm, cpu, mem, none, none, none, none, none, none, z, rw, av⟩

/-- A 2-cpu/4-GB MachineSet named `small`. -/
def msSmall : MachineSet := ⟨"small", 2, 4, "sm", 10, [], none, none⟩

/-- A 16-cpu/64-GB MachineSet named `big` (the spec's kubelet calibration
size). -/
def msBig : MachineSet := ⟨"big", 16, 64, "bg", 10, [], none, none⟩

/-- A 16-cpu/64-GB MachineSet named `xyzq` (name chosen so that it cannot
occur in the error-message template). -/
def msXyzq : MachineSet := ⟨"xyzq", 16, 64, "xq", 10, [], none, none⟩

/-- One workload, one 10-cpu/10-GB service; with MachineSets
`[small, big]` validation passes via `big` but the node is built from
`small`. -/
def wdMismatch : WorkloadDescriptor := ⟨"w", 1, [], [mkDesc "s" 10 10 1 [] []], none⟩

/-- One workload: `s1` wants 1 zone, `s2` wants 3 zones. -/
def wdZones : WorkloadDescriptor :=
  ⟨"w", 1, [], [mkDesc "s1" 1 1 1 [] [], mkDesc "s2" 1 1 3 [] []], none⟩

/-- One workload: `a` runs with `b`, while `b` avoids `a`. -/
def wdAvoid : WorkloadDescriptor :=
  ⟨"w", 1, [], [mkDesc "a" 1 1 1 ["b"] [], mkDesc "b" 1 1 1 [] ["a"]], none⟩

/-- One workload whose two independent 30-cpu services cannot fit `msXyzq`
together, though each alone could. -/
def wdTooBig : WorkloadDescriptor :=
  ⟨"w", 1, [], [mkDesc "p" 30 1 1 [] [], mkDesc "q" 30 1 1 [] []], none⟩

/-! ## General lemmas about the embedding -/

/-- Sum of required cpu over a service list. -/
def sumCPU (l : List Service) : ℚ := (l.map (·.requiredCPU)).sum

/-- Sum of required memory over a service list. -/
def sumMem (l : List Service) : ℚ := (l.map (·.requiredMemory)).sum

/-- Count of services whose name contains `Ceph_OSD`. -/
def countDisks (l : List Service) : Nat :=
  (l.filter (fun s => strContains s.name "Ceph_OSD")).length

theorem gtr_go (l : List Service) (acc : ResourceRequirement) :
    l.foldl
      (fun acc service =>
        { totalMem := acc.totalMem + service.requiredMemory
          totalCPU := acc.totalCPU + service.requiredCPU
          totalDisks :=
            acc.totalDisks + (if strContains service.name "Ceph_OSD" then 1 else 0) })
      acc =
    { totalMem := acc.totalMem + sumMem l, totalCPU := acc.totalCPU + sumCPU l,
      totalDisks := acc.totalDisks + countDisks l } := by
  induction l generalizing acc with
  | nil => simp [sumMem, sumCPU, countDisks]
  | cons s rest ih =>
    rw [List.foldl_cons, ih]
    simp only [sumMem, sumCPU, countDisks, List.map_cons, List.sum_cons, List.filter_cons,
      ResourceRequirement.mk.injEq]
    refine ⟨by ring, by ring, ?_⟩
    split <;> (simp; try omega)

/-- `getTotalResourceRequirement` computes the three sums. -/
theorem gtr_eq (l : List Service) :
    getTotalResourceRequirement l =
      { totalMem := sumMem l, totalCPU := sumCPU l, totalDisks := countDisks l } := by
  unfold getTotalResourceRequirement
  rw [gtr_go]
  simp

/-- `canNodeSupportRequirements` as the three inequalities. -/
theorem canNodeSupportRequirements_iff (k : KubeletFn)
    (req usage : ResourceRequirement) (node : Node) :
    canNodeSupportRequirements k req usage node = true ↔
      req.totalCPU + usage.totalCPU + k.cpu node.cpuUnits ≤ node.cpuUnits ∧
      req.totalMem + usage.totalMem + k.mem node.memory ≤ node.memory ∧
      req.totalDisks + usage.totalDisks ≤ node.maxDisks := by
  unfold canNodeSupportRequirements
  simp only [Bool.not_eq_true', Bool.or_eq_false_iff, decide_eq_false_iff_not, not_lt]
  tauto

theorem updateFirst_of_forall_neg {p : α → Bool} {f : α → α} {l : List α}
    (h : ∀ x ∈ l, p x = false) : updateFirst p f l = l := by
  induction l with
  | nil => rfl
  | cons y ys ih =>
    have hy := h y (List.mem_cons_self _ _)
    simp only [updateFirst, hy, Bool.false_eq_true, if_false, List.cons.injEq, true_and]
    exact ih (fun x hx => h x (List.mem_cons_of_mem _ hx))

theorem updateFirst_exists {p : α → Bool} {f : α → α} {l : List α}
    (h : ∃ x ∈ l, p x = true) :
    ∃ x ∈ l, p x = true ∧ f x ∈ updateFirst p f l := by
  induction l with
  | nil => simp at h
  | cons y ys ih =>
    by_cases hy : p y = true
    · exact ⟨y, List.mem_cons_self _ _, hy, by simp [updateFirst, hy]⟩
    · obtain ⟨x, hx, hpx⟩ := h
      have hxys : x ∈ ys := by
        rcases List.mem_cons.1 hx with rfl | h'
        · exact absurd hpx hy
        · exact h'
      obtain ⟨x', hx', hp', hf'⟩ := ih ⟨x, hxys, hpx⟩
      refine ⟨x', List.mem_cons_of_mem _ hx', hp', ?_⟩
      simp only [updateFirst, hy, Bool.false_eq_true, if_false]
      exact List.mem_cons_of_mem _ hf'

/-- In a list sorted by a reflexive relation, every member relates to the
last element. -/
theorem sorted_rel_getLast {r : α → α → Prop} (hrefl : ∀ a : α, r a a) :
    ∀ {l : List α}, l.Sorted r → ∀ {a : α}, l.getLast? = some a → ∀ {x : α}, x ∈ l → r x a := by
  intro l
  induction l with
  | nil => intro _ a ha; cases ha
  | cons y ys ih =>
    intro hs a ha x hx
    cases ys with
    | nil =>
      simp only [List.getLast?_singleton, Option.some.injEq] at ha
      rcases List.mem_singleton.1 hx with rfl
      rw [← ha]
      exact hrefl x
    | cons z zs =>
      have hpair := List.sorted_cons.1 hs
      have ha' : (z :: zs).getLast? = some a := by
        rwa [List.getLast?_cons_cons] at ha
      rcases List.mem_cons.1 hx with rfl | hx'
      · exact hpair.1 a (List.mem_of_mem_getLast? (by rw [ha']; rfl))
      · exact ih hpair.2 ha' hx'

/-! ## C8: risk-level thresholds -/

/-- The risk table of spec §4.7 as a predicate relating a risk level to the
worst-case ratio `r`. -/
def riskTable (rl : RiskLevel) (r : ℚ) : Prop :=
  (rl = RiskLevel.none ↔ r ≤ 1) ∧
  (rl = RiskLevel.low ↔ 1 < r ∧ r ≤ 2) ∧
  (rl = RiskLevel.medium ↔ 2 < r ∧ r ≤ 4) ∧
  (rl = RiskLevel.high ↔ 4 < r)

theorem riskTable_of_ite (r : ℚ) :
    riskTable
      (if r ≤ 1 then RiskLevel.none
       else if r ≤ 2 then RiskLevel.low
       else if r ≤ 4 then RiskLevel.medium
       else RiskLevel.high) r := by
  unfold riskTable
  split_ifs with h1 h2 h3
  · exact ⟨iff_of_true rfl h1,
      iff_of_false (by nofun) (fun h => by linarith [h.1]),
      iff_of_false (by nofun) (fun h => by linarith [h.1]),
      iff_of_false (by nofun) (fun h => by linarith)⟩
  · exact ⟨iff_of_false (by nofun) (fun h => h1 h),
      iff_of_true rfl ⟨not_le.1 h1, h2⟩,
      iff_of_false (by nofun) (fun h => by linarith [h.1]),
      iff_of_false (by nofun) (fun h => by linarith)⟩
  · exact ⟨iff_of_false (by nofun) (fun h => h1 h),
      iff_of_false (by nofun) (fun h => h2 h.2),
      iff_of_true rfl ⟨not_le.1 h2, h3⟩,
      iff_of_false (by nofun) (fun h => by linarith)⟩
  · exact ⟨iff_of_false (by nofun) (fun h => by linarith [not_le.1 h3]),
      iff_of_false (by nofun) (fun h => h2 h.2),
      iff_of_false (by nofun) (fun h => h3 h.2),
      iff_of_true rfl (not_le.1 h3)⟩

/-- C8: in both `calculateNodeOverCommit` and `calculateClusterOverCommit`,
`riskLevel` is a function of the worst-case ratio `r` — the max over cpu and
memory of the (upper bound of the) returned over-commit ratio: `none` iff
`r ≤ 1`, `low` iff `1 < r ≤ 2`, `medium` iff `2 < r ≤ 4`, `high` iff
`4 < r`. -/
theorem C8_risk_thresholds (k : KubeletFn) (node : Node) (nodes : List Node)
    (services : List Service) :
    riskTable (calculateNodeOverCommit k node services).riskLevel
      (max (calculateNodeOverCommit k node services).cpuOverCommit.maxValue
        (calculateNodeOverCommit k node services).memoryOverCommit.maxValue) ∧
    riskTable (calculateClusterOverCommit k nodes services).riskLevel
      (max (calculateClusterOverCommit k nodes services).overCommitCpu.maxValue
        (calculateClusterOverCommit k nodes services).overCommitMemory.maxValue) := by
  constructor
  · unfold calculateNodeOverCommit
    cases hdyn : services.any (fun s =>
        qTruthy s.minLimitCPU || qTruthy s.maxLimitCPU ||
        qTruthy s.minLimitMemory || qTruthy s.maxLimitMemory) <;>
      simp only [hdyn, Bool.false_eq_true, if_false, if_true, NumOrRange.maxValue] <;>
      exact riskTable_of_ite _
  · unfold calculateClusterOverCommit
    cases hdyn : services.any (fun s =>
        qTruthy s.minLimitCPU || qTruthy s.maxLimitCPU ||
        qTruthy s.minLimitMemory || qTruthy s.maxLimitMemory) <;>
      simp only [hdyn, Bool.false_eq_true, if_false, if_true, NumOrRange.maxValue] <;>
      exact riskTable_of_ite _

/-! ## C10: the control-plane admission bypass -/

/-- C10: on a control-plane node, a candidate whose name matches a
control-plane marker is admitted by `canNodeAddService` as soon as its id is
defined, an owning workload is found, and that workload's `usesMachines` is
empty or contains the node's MachineSet — regardless of capacity, the
node's `onlyFor` taint, and all `avoid` relations. -/
theorem C10_control_plane_bypass (k : KubeletFn) (node : Node) (candidate : Service)
    (allServices : List Service) (workloads : List Workload)
    (machineSets : List MachineSet) (i : Nat) (w : Workload)
    (hcp : node.isControlPlane = true)
    (hsvc : isControlPlaneService candidate = true)
    (hid : candidate.id = some i)
    (hfind : workloads.find? (fun w => w.services.contains i) = some w)
    (hum : w.usesMachines = [] ∨ w.usesMachines.contains node.machineSet = true) :
    canNodeAddService k node candidate allServices workloads machineSets = true := by
  unfold canNodeAddService
  rw [hid]
  dsimp only
  rw [hfind]
  have hcond : (!w.usesMachines.isEmpty && !w.usesMachines.contains node.machineSet) = false := by
    rcases hum with h | h
    · simp [h]
    · have h' : node.machineSet ∈ w.usesMachines := by
        simpa [List.contains_eq_any_beq, List.any_eq_true, eq_comm] using h
      simp [h']
  simp only [hcond, hcp, hsvc, Bool.false_eq_true, Bool.and_self, if_false, if_true]

/-! ## C9: ownerless bundles are a silent no-op -/

/-- `canNodeAddService` rejects a candidate none of the workloads own. -/
theorem canNodeAddService_no_owner (k : KubeletFn) (node : Node) (candidate : Service)
    (allServices : List Service) (workloads : List Workload) (machineSets : List MachineSet)
    (h : ∀ w ∈ workloads, ∀ j, candidate.id = some j → w.services.contains j = false) :
    canNodeAddService k node candidate allServices workloads machineSets = false := by
  unfold canNodeAddService
  cases hid : candidate.id with
  | none => rfl
  | some j =>
    have hnone : workloads.find? (fun w => w.services.contains j) = none := by
      rw [List.find?_eq_none]
      intro w hw
      simpa using h w hw j hid
    dsimp only
    rw [hnone]

/-- C9 amended: when no workload owns any member of a (nonempty) bundle,
`addServiceToZone` returns the nodes and the zone unchanged, silently — no
error is raised; inside `size` this state is unreachable because the
scheduler passes the owning workload. -/
theorem C9_silent_noop_on_ownerless (k : KubeletFn) (zone : Zone) (nodes : List Node)
    (services bundle : List Service) (workloads : List Workload)
    (machineSets : List MachineSet) (ctr : Nat)
    (hne : bundle ≠ [])
    (hun : ∀ w ∈ workloads, ∀ m ∈ bundle, ∀ j, m.id = some j →
      w.services.contains j = false) :
    addServiceToZone k zone nodes services bundle workloads machineSets ctr =
      some (nodes, zone, ctr) := by
  obtain ⟨b, bs, rfl⟩ := List.exists_cons_of_ne_nil hne
  unfold addServiceToZone
  dsimp only
  have hviable : sortNodesWithLeastConsumption k
      (nodes.filter (fun node => zone.nodes.contains node.id)) services (b :: bs)
      workloads machineSets = [] := by
    unfold sortNodesWithLeastConsumption
    have hfilter : (nodes.filter (fun node => zone.nodes.contains node.id)).filter
        (fun node => (b :: bs).all (fun candidate =>
          canNodeAddService k node candidate services workloads machineSets)) = [] := by
      rw [List.filter_eq_nil_iff]
      intro node _
      have hb : canNodeAddService k node b services workloads machineSets = false :=
        canNodeAddService_no_owner k node b services workloads machineSets
          (fun w hw j hj => hun w hw b (List.mem_cons_self _ _) j hj)
      simp [List.all_cons, hb]
    rw [hfilter]
    rfl
  rw [hviable]
  dsimp only [List.head?, Option.bind]
  cases hbid : b.id with
  | none =>
    split
    · rfl
    · next workload hfind =>
      have hp := List.find?_some hfind
      simp at hp
  | some i =>
    split
    · rfl
    · next workload hfind =>
      have hp := List.find?_some hfind
      have hmem := List.mem_of_find?_eq_some hfind
      simp only at hp
      rw [hun workload hmem b (List.mem_cons_self _ _) i hbid] at hp
      cases hp

/-! ## C2: bundles are one-hop, not connected components; placement is atomic -/

/-- C2 amended: the bundle formed around a candidate is the candidate plus
exactly the listed services whose (defined) id appears in the candidate's
own `runsWith` (one directed hop — neither symmetric nor transitive); and
any successful, owned `addServiceToZone` places the whole bundle's ids on a
single node. -/
theorem C2_one_hop_bundle_and_atomic_placement
    (cand t : Service) (ss : List Service)
    (k : KubeletFn) (zone : Zone) (nodes : List Node)
    (services bundle : List Service) (workloads : List Workload)
    (machineSets : List MachineSet) (ctr : Nat)
    (nodes' : List Node) (zone' : Zone) (ctr' : Nat)
    (hadd : addServiceToZone k zone nodes services bundle workloads machineSets ctr =
      some (nodes', zone', ctr'))
    (howner : ∃ w ∈ workloads, ∃ i, bundle.head?.bind (·.id) = some i ∧
      w.services.contains i = true) :
    (t ∈ getCoplacedServices cand ss ↔
      t = cand ∨ (t ∈ ss ∧ (∃ i, t.id = some i ∧ i ∈ cand.runsWith) ∧ t.id ≠ cand.id)) ∧
    ∃ n ∈ nodes', ∀ j ∈ bundle.filterMap (·.id), j ∈ n.services := by
  constructor
  · unfold getCoplacedServices
    rw [List.mem_cons, List.mem_filter]
    apply or_congr Iff.rfl
    constructor
    · rintro ⟨hts, hp⟩
      cases hid : t.id with
      | none => rw [hid] at hp; simp at hp
      | some i =>
        rw [hid] at hp
        simp only [Bool.and_eq_true] at hp
        refine ⟨hts, ⟨i, rfl, by simpa using hp.1⟩, ?_⟩
        simpa using hp.2
    · rintro ⟨hts, ⟨i, hid, hin⟩, hne⟩
      refine ⟨hts, ?_⟩
      rw [hid]
      simp only [Bool.and_eq_true]
      exact ⟨by simpa using hin, by rw [hid] at hne; simpa using hne⟩
  · unfold addServiceToZone at hadd
    dsimp only at hadd
    split at hadd
    · next nodeToRun hhead =>
      simp only [Option.some.injEq, Prod.mk.injEq] at hadd
      obtain ⟨h1, _h2, _h3⟩ := hadd
      have hmem : nodeToRun ∈ nodes := by
        have hsortmem : nodeToRun ∈ List.insertionSort
            (fun a b => nodeConsLE services a b = true)
            ((nodes.filter (fun node => zone.nodes.contains node.id)).filter
              (fun node => bundle.all (fun candidate =>
                canNodeAddService k node candidate services workloads machineSets))) := by
          unfold sortNodesWithLeastConsumption at hhead
          obtain ⟨ys, hys⟩ := List.head?_eq_some_iff.1 hhead
          rw [hys]
          exact List.mem_cons_self _ _
        have := (List.perm_insertionSort
          (fun a b => nodeConsLE services a b = true) _).mem_iff.1 hsortmem
        exact List.mem_of_mem_filter (List.mem_of_mem_filter this)
      obtain ⟨x, _hx, _hpx, hfx⟩ := updateFirst_exists
        (p := fun n => n.id == nodeToRun.id) (l := nodes)
        ⟨nodeToRun, hmem, by simp⟩
      refine ⟨_, h1 ▸ hfx, ?_⟩
      intro j hj
      exact List.mem_append_right _ hj
    · next hhead =>
      split at hadd
      · next hfind =>
        obtain ⟨w, hw, i, hbid, hcont⟩ := howner
        have := List.find?_eq_none.1 hfind w hw
        rw [hbid] at this
        exact absurd hcont (by simpa using this)
      · next workload hfind =>
        split at hadd
        · exact absurd hadd (by simp)
        · next ms hms =>
          simp only [getNode, Option.some.injEq, Prod.mk.injEq] at hadd
          obtain ⟨h1, _h2, _h3⟩ := hadd
          refine ⟨_, h1 ▸ List.mem_append_right nodes (List.mem_singleton.2 rfl), ?_⟩
          intro j hj
          exact hj

/-! ## C3: the scheduler pops the worst-ranked zone -/

instance : IsTotal RankedZone (fun a b => zoneRankLE a b = true) := ⟨by
  intro a b
  simp only [zoneRankLE, Bool.or_eq_true, Bool.and_eq_true, decide_eq_true_eq]
  omega⟩

instance : IsTrans RankedZone (fun a b => zoneRankLE a b = true) := ⟨by
  intro a b c
  simp only [zoneRankLE, Bool.or_eq_true, Bool.and_eq_true, decide_eq_true_eq]
  omega⟩

theorem zoneRankLE_refl (a : RankedZone) : zoneRankLE a a = true := by
  simp [zoneRankLE]

/-- The last element of `sortBestZones` (the one `pop()` takes) is a zone
with at least one capable node that has the fewest capable nodes, ties
broken towards the lower zone id. -/
theorem sortBestZones_getLast (k : KubeletFn) (zones : List Zone) (nodes : List Node)
    (allServices workload : List Service)
    (hcap : ∃ z ∈ zones, 0 < capableNodesInZone k z nodes allServices
      (getTotalResourceRequirement workload)) :
    ∃ z₀, (sortBestZones k zones nodes allServices workload).getLast? = some z₀ ∧
      z₀ ∈ zones ∧
      0 < capableNodesInZone k z₀ nodes allServices (getTotalResourceRequirement workload) ∧
      ∀ z ∈ zones,
        0 < capableNodesInZone k z nodes allServices (getTotalResourceRequirement workload) →
        capableNodesInZone k z₀ nodes allServices (getTotalResourceRequirement workload) ≤
          capableNodesInZone k z nodes allServices (getTotalResourceRequirement workload) ∧
        (capableNodesInZone k z nodes allServices (getTotalResourceRequirement workload) =
            capableNodesInZone k z₀ nodes allServices (getTotalResourceRequirement workload) →
          z₀.id ≤ z.id) := by
  obtain ⟨zc, hzc_mem, hzc_cap⟩ := hcap
  unfold sortBestZones
  dsimp only
  have hzc_ranked : (⟨zc, capableNodesInZone k zc nodes allServices
      (getTotalResourceRequirement workload)⟩ : RankedZone) ∈
      zones.filterMap (fun zone =>
        if 0 < capableNodesInZone k zone nodes allServices
            (getTotalResourceRequirement workload) then
          some (⟨zone, capableNodesInZone k zone nodes allServices
            (getTotalResourceRequirement workload)⟩ : RankedZone)
        else none) := by
    refine List.mem_filterMap.2 ⟨zc, hzc_mem, ?_⟩
    simp only [if_pos hzc_cap]
  have hperm := List.perm_insertionSort (fun a b => zoneRankLE a b = true)
    (zones.filterMap (fun zone =>
      if 0 < capableNodesInZone k zone nodes allServices
          (getTotalResourceRequirement workload) then
        some (⟨zone, capableNodesInZone k zone nodes allServices
          (getTotalResourceRequirement workload)⟩ : RankedZone)
      else none))
  have hsorted := List.sorted_insertionSort (fun a b => zoneRankLE a b = true)
    (zones.filterMap (fun zone =>
      if 0 < capableNodesInZone k zone nodes allServices
          (getTotalResourceRequirement workload) then
        some (⟨zone, capableNodesInZone k zone nodes allServices
          (getTotalResourceRequirement workload)⟩ : RankedZone)
      else none))
  have hne : List.insertionSort (fun a b => zoneRankLE a b = true)
      (zones.filterMap (fun zone =>
        if 0 < capableNodesInZone k zone nodes allServices
            (getTotalResourceRequirement workload) then
          some (⟨zone, capableNodesInZone k zone nodes allServices
            (getTotalResourceRequirement workload)⟩ : RankedZone)
        else none)) ≠ [] := by
    intro hnil
    rw [hnil] at hperm
    rw [← hperm.mem_iff] at hzc_ranked
    cases hzc_ranked
  have hlast := List.getLast?_eq_getLast _ hne
  have hlast_mem_sorted := List.getLast_mem hne
  have hlast_ranked := hperm.mem_iff.1 hlast_mem_sorted
  obtain ⟨zl, hzl_mem, hzl_eq⟩ := List.mem_filterMap.1 hlast_ranked
  by_cases hzl_cap : 0 < capableNodesInZone k zl nodes allServices
      (getTotalResourceRequirement workload)
  swap
  · rw [if_neg hzl_cap] at hzl_eq
    cases hzl_eq
  rw [if_pos hzl_cap] at hzl_eq
  have hzl_val := Option.some.inj hzl_eq
  refine ⟨zl, ?_, hzl_mem, hzl_cap, ?_⟩
  · rw [List.getLast?_map, hlast, ← hzl_val]
    rfl
  · intro z hz hzcap
    have hz_ranked : (⟨z, capableNodesInZone k z nodes allServices
        (getTotalResourceRequirement workload)⟩ : RankedZone) ∈
        zones.filterMap (fun zone =>
          if 0 < capableNodesInZone k zone nodes allServices
              (getTotalResourceRequirement workload) then
            some (⟨zone, capableNodesInZone k zone nodes allServices
              (getTotalResourceRequirement workload)⟩ : RankedZone)
          else none) := by
      refine List.mem_filterMap.2 ⟨z, hz, ?_⟩
      simp only [if_pos hzcap]
    have hz_sorted := hperm.mem_iff.2 hz_ranked
    have hrel := sorted_rel_getLast zoneRankLE_refl hsorted hlast hz_sorted
    rw [← hzl_val] at hrel
    simp only [zoneRankLE, Bool.or_eq_true, Bool.and_eq_true, decide_eq_true_eq] at hrel
    constructor
    · omega
    · intro heq
      omega

/-- C3 amended: when at least one candidate zone (not in the used set) has a
node able to host the bundle, the zone-selection step hands placement to the
**lowest**-ranked such zone in the C5 ordering — the candidate zone with the
fewest capable nodes, ties broken by the lower zone id (the code pops the
tail of the descending sort). -/
theorem C3_selects_worst_ranked_zone (k : KubeletFn) (zones : List Zone)
    (nodes : List Node) (services bundle : List Service) (usedZonesId : List Nat)
    (hcap : ∃ z ∈ zones, (!usedZonesId.contains z.id) = true ∧
      0 < capableNodesInZone k z nodes services (getTotalResourceRequirement bundle)) :
    ∃ z₀, (selectZone k zones nodes services bundle usedZonesId).1 = some z₀ ∧
      z₀ ∈ zones ∧ (!usedZonesId.contains z₀.id) = true ∧
      0 < capableNodesInZone k z₀ nodes services (getTotalResourceRequirement bundle) ∧
      ∀ z ∈ zones, (!usedZonesId.contains z.id) = true →
        0 < capableNodesInZone k z nodes services (getTotalResourceRequirement bundle) →
        capableNodesInZone k z₀ nodes services (getTotalResourceRequirement bundle) ≤
          capableNodesInZone k z nodes services (getTotalResourceRequirement bundle) ∧
        (capableNodesInZone k z nodes services (getTotalResourceRequirement bundle) =
            capableNodesInZone k z₀ nodes services (getTotalResourceRequirement bundle) →
          z₀.id ≤ z.id) := by
  obtain ⟨zc, hzc_mem, hzc_unused, hzc_cap⟩ := hcap
  have hfil : ∃ z ∈ zones.filter (fun z => !usedZonesId.contains z.id),
      0 < capableNodesInZone k z nodes services (getTotalResourceRequirement bundle) :=
    ⟨zc, List.mem_filter.2 ⟨hzc_mem, hzc_unused⟩, hzc_cap⟩
  obtain ⟨z₀, hlast, hz₀_mem, hz₀_cap, hmin⟩ :=
    sortBestZones_getLast k (zones.filter (fun z => !usedZonesId.contains z.id))
      nodes services bundle hfil
  have hz₀_zones := List.mem_of_mem_filter hz₀_mem
  have hz₀_unused : (!usedZonesId.contains z₀.id) = true :=
    (List.mem_filter.1 hz₀_mem).2
  refine ⟨z₀, ?_, hz₀_zones, hz₀_unused, hz₀_cap, ?_⟩
  · unfold selectZone
    dsimp only
    rw [hlast]
  · intro z hz hz_unused hz_cap
    exact hmin z (List.mem_filter.2 ⟨hz, hz_unused⟩) hz_cap

/-! ## C6: the NotSchedulable error -/

/-- C6 amended: when `size` aborts with the NotSchedulable error (and it
aborts before any scheduling, so no partial result exists), the error
belongs to a workload failing `isWorkloadSchedulable`, and its minima are
computed from the *whole workload's* request totals (not the failing
bundle's) plus the kubelet overhead of the target MachineSet —
`min(200, ⌈(cpu)/2⌉·2)` and `min(512, ⌈(mem)/4⌉·4)` — while the message
interpolates only the workload name and the two minima (it does not name
the target MachineSet). -/
theorem C6_error_from_workload_totals (k : KubeletFn)
    (wds : List WorkloadDescriptor) (mss : List MachineSet) (c : Counters)
    (e : NotSchedulableError)
    (h : size k wds mss c = .error (.notSchedulable e)) :
    ∃ w ∈ (expandWorkloads wds c).1,
      (isWorkloadSchedulable k (expandWorkloads wds c).2.1 mss w).1 = false ∧
      e.workloadName = w.name ∧
      e.minRequiredCPU = min 200
        (⌈((getTotalResourceRequirement
              (getWorkloadServices w (expandWorkloads wds c).2.1)).totalCPU +
            k.cpu (((targetMachineSetFor w mss).map (·.cpu)).getD 0)) / 2⌉ * 2) ∧
      e.minRequiredMemory = min 512
        (⌈((getTotalResourceRequirement
              (getWorkloadServices w (expandWorkloads wds c).2.1)).totalMem +
            k.mem (((targetMachineSetFor w mss).map (·.memory)).getD 0)) / 4⌉ * 4) ∧
      e.message =
        "Workload \"" ++ w.name ++ "\" is not schedulable. " ++
        "All available MachineSets are too small to run this workload. " ++
        "Minimum required: at least " ++ toString e.minRequiredCPU ++
        " CPU and " ++ toString e.minRequiredMemory ++ " GB memory." := by
  unfold size at h
  dsimp only at h
  split at h
  case h_2 =>
    split at h
    · cases h
    · cases h
  case h_1 e' hv =>
    have he : e' = e := by
      injection h with h'
      injection h'
    subst he
    unfold validateWorkloadsCanSchedule at hv
    obtain ⟨w, hw, heq⟩ := List.exists_of_findSome?_eq_some hv
    dsimp only at heq
    split at heq
    · cases heq
    · next hsched =>
      have he := Option.some.inj heq
      subst he
      refine ⟨w, hw, by simpa using hsched, rfl, ?_, ?_, ?_⟩
      · dsimp only
        rw [gtr_eq]
        rfl
      · dsimp only
        rw [gtr_eq]
        rfl
      · rfl

/-! ## Infrastructure for the pipeline invariants (C1, C4, C5) -/

/-- Generated (internal) service ids are pairwise distinct. -/
def UniqueIds (l : List Service) : Prop :=
  (l.filterMap (·.id)).Nodup

theorem countDisks_eq_sum (l : List Service) :
    countDisks l = (l.map (fun s => if strContains s.name "Ceph_OSD" then 1 else 0)).sum := by
  induction l with
  | nil => rfl
  | cons s rest ih =>
    simp only [countDisks, List.filter_cons, List.map_cons, List.sum_cons] at *
    split <;> (simp [ih]; try omega)

theorem sum_map_le_of_nodup_subset {M : Type} [OrderedAddCommMonoid M]
    [CovariantClass M M (· + ·) (· ≤ ·)] [DecidableEq α]
    (v : α → M) {l L : List α} (hnd : l.Nodup) (hsub : ∀ x ∈ l, x ∈ L)
    (hv : ∀ x ∈ L, 0 ≤ v x) :
    (l.map v).sum ≤ (L.map v).sum := by
  induction l generalizing L with
  | nil =>
    simp only [List.map_nil, List.sum_nil]
    exact List.sum_nonneg (by
      intro q hq
      obtain ⟨x, hx, rfl⟩ := List.mem_map.1 hq
      exact hv x hx)
  | cons a rest ih =>
    have haL : a ∈ L := hsub a (List.mem_cons_self _ _)
    have hperm : L.Perm (a :: L.erase a) := List.perm_cons_erase haL
    have hrest_sub : ∀ x ∈ rest, x ∈ L.erase a := by
      intro x hx
      have hxa : x ≠ a := by
        intro h
        exact (List.nodup_cons.1 hnd).1 (h ▸ hx)
      exact (List.mem_erase_of_ne hxa).2 (hsub x (List.mem_cons_of_mem _ hx))
    have hv' : ∀ x ∈ L.erase a, 0 ≤ v x :=
      fun x hx => hv x (List.mem_of_mem_erase hx)
    have := ih (List.nodup_cons.1 hnd).2 hrest_sub hv'
    calc ((a :: rest).map v).sum = v a + (rest.map v).sum := by simp
    _ ≤ v a + ((L.erase a).map v).sum := by exact add_le_add_left this _
    _ = ((a :: L.erase a).map v).sum := by simp
    _ = (L.map v).sum := ((hperm.map v).sum_eq).symm

theorem sum_map_filter_or_le {M : Type} [OrderedAddCommMonoid M]
    [CovariantClass M M (· + ·) (· ≤ ·)] [CovariantClass M M (Function.swap (· + ·)) (· ≤ ·)]
    (v : α → M) (p q : α → Bool) {l : List α} (hv : ∀ x ∈ l, 0 ≤ v x) :
    ((l.filter (fun a => p a || q a)).map v).sum ≤
      ((l.filter p).map v).sum + ((l.filter q).map v).sum := by
  induction l with
  | nil => simp
  | cons a rest ih =>
    have hva := hv a (List.mem_cons_self _ _)
    have ih' := ih (fun x hx => hv x (List.mem_cons_of_mem _ hx))
    by_cases hp : p a = true <;> by_cases hq : q a = true
    · simp only [List.filter_cons, hp, hq, Bool.true_or, if_true, List.map_cons, List.sum_cons]
      have h1 := add_le_add_left ih' (v a)
      have h2 : v a + (((rest.filter p).map v).sum + ((rest.filter q).map v).sum) =
          (v a + ((rest.filter p).map v).sum) + ((rest.filter q).map v).sum :=
        (add_assoc _ _ _).symm
      have h3 : (v a + ((rest.filter p).map v).sum) + ((rest.filter q).map v).sum ≤
          (v a + ((rest.filter p).map v).sum) + (v a + ((rest.filter q).map v).sum) :=
        add_le_add_left (le_add_of_nonneg_left hva) _
      exact le_trans h1 (le_trans (le_of_eq h2) h3)
    · simp only [Bool.not_eq_true] at hq
      simp only [List.filter_cons, hp, hq, Bool.true_or, Bool.or_false, if_true,
        Bool.false_eq_true, if_false, List.map_cons, List.sum_cons]
      have h1 := add_le_add_left ih' (v a)
      exact le_trans h1 (le_of_eq (add_assoc _ _ _).symm)
    · simp only [Bool.not_eq_true] at hp
      simp only [List.filter_cons, hp, hq, Bool.false_or, if_true,
        Bool.false_eq_true, if_false, List.map_cons, List.sum_cons]
      have h1 := add_le_add_left ih' (v a)
      have h2 : v a + (((rest.filter p).map v).sum + ((rest.filter q).map v).sum) =
          ((rest.filter p).map v).sum + (v a + ((rest.filter q).map v).sum) := by
        rw [← add_assoc, add_comm (v a), add_assoc]
      exact le_trans h1 (le_of_eq h2)
    · simp only [Bool.not_eq_true] at hp hq
      simp only [List.filter_cons, hp, hq, Bool.or_self, Bool.false_eq_true, if_false]
      exact ih'

/-- Services with pairwise distinct defined ids are pairwise distinct. -/
theorem nodup_of_nodup_ids {l : List Service}
    (hids : (l.filterMap (·.id)).Nodup) (hsome : ∀ s ∈ l, s.id.isSome) :
    l.Nodup := by
  induction l with
  | nil => exact List.nodup_nil
  | cons a rest ih =>
    obtain ⟨i, hi⟩ := Option.isSome_iff_exists.1 (hsome a (List.mem_cons_self _ _))
    rw [List.filterMap_cons, hi] at hids
    have hnd := List.nodup_cons.1 hids
    refine List.nodup_cons.2 ⟨?_, ih hnd.2 (fun s hs => hsome s (List.mem_cons_of_mem _ hs))⟩
    intro hmem
    exact hnd.1 (List.mem_filterMap.2 ⟨a, hmem, hi⟩)

/-- Two services of a `UniqueIds` list sharing a defined id are equal. -/
theorem uniqueIds_inj {l : List Service} (h : UniqueIds l)
    {a b : Service} (ha : a ∈ l) (hb : b ∈ l) {i : Nat}
    (hai : a.id = some i) (hbi : b.id = some i) : a = b := by
  induction l with
  | nil => cases ha
  | cons x rest ih =>
    unfold UniqueIds at h
    rw [List.filterMap_cons] at h
    rcases List.mem_cons.1 ha with rfl | ha' <;> rcases List.mem_cons.1 hb with rfl | hb'
    · rfl
    · exfalso
      rw [hai] at h
      exact (List.nodup_cons.1 h).1 (List.mem_filterMap.2 ⟨b, hb', hbi⟩)
    · exfalso
      rw [hbi] at h
      exact (List.nodup_cons.1 h).1 (List.mem_filterMap.2 ⟨a, ha', hai⟩)
    · refine ih ?_ ha' hb'
      unfold UniqueIds
      cases hx : x.id with
      | none => rwa [hx] at h
      | some j =>
        rw [hx] at h
        exact (List.nodup_cons.1 h).2

/-- On a non-control-plane node, a successful `canNodeAddService` implies
the capacity check passed for the candidate together with its `runsWith`
co-runners against the node's existing consumption. -/
theorem canNodeAddService_capacity (k : KubeletFn) (node : Node) (candidate : Service)
    (allServices : List Service) (workloads : List Workload) (machineSets : List MachineSet)
    (hcp : node.isControlPlane = false)
    (h : canNodeAddService k node candidate allServices workloads machineSets = true) :
    canNodeSupportRequirements k
      (getTotalResourceRequirement
        ((allServices.filter (fun s =>
          match s.id with
          | some i => candidate.runsWith.contains i
          | none => false)) ++ [candidate]))
      (getTotalResourceRequirement (getServicesInNode node allServices)) node = true := by
  unfold canNodeAddService at h
  cases hid : candidate.id with
  | none => rw [hid] at h; cases h
  | some cid =>
    rw [hid] at h
    dsimp only at h
    cases hfind : workloads.find? (fun w => w.services.contains cid) with
    | none => rw [hfind] at h; cases h
    | some w =>
      rw [hfind] at h
      dsimp only at h
      rw [hcp] at h
      simp only [Bool.false_and, Bool.false_eq_true, if_false, Bool.not_false,
        Bool.true_and] at h
      split at h
      · cases h
      · split at h
        · cases h
        · split at h
          · cases h
          · split at h
            · cases h
            · split at h
              · cases h
              · exact h

/-- On a non-control-plane node, a successful `canNodeAddService` implies
both anti-affinity checks passed. -/
theorem canNodeAddService_avoid (k : KubeletFn) (node : Node) (candidate : Service)
    (allServices : List Service) (workloads : List Workload) (machineSets : List MachineSet)
    (hcp : node.isControlPlane = false)
    (h : canNodeAddService k node candidate allServices workloads machineSets = true) :
    (∀ i ∈ candidate.avoid, node.services.contains i = false) ∧
    (∀ a ∈ getServicesInNode node allServices, ∀ i, candidate.id = some i → i ∉ a.avoid) := by
  unfold canNodeAddService at h
  cases hid : candidate.id with
  | none => rw [hid] at h; cases h
  | some cid =>
    rw [hid] at h
    dsimp only at h
    cases hfind : workloads.find? (fun w => w.services.contains cid) with
    | none => rw [hfind] at h; cases h
    | some w =>
      rw [hfind] at h
      dsimp only at h
      rw [hcp] at h
      simp only [Bool.false_and, Bool.false_eq_true, if_false, Bool.not_false,
        Bool.true_and] at h
      split at h
      · cases h
      · split at h
        · cases h
        · split at h
          · cases h
          · split at h
            · cases h
            · split at h
              · cases h
              · rename_i htaint hany hflat
                constructor
                · intro i hi
                  simp only [Bool.not_eq_true, List.any_eq_false] at hany
                  simpa using hany i hi
                · intro a ha i hci hmem
                  obtain rfl : cid = i := by injection hci
                  simp only [Bool.not_eq_true] at hflat
                  have : (List.map (fun x => x.avoid)
                      (getServicesInNode node allServices)).flatten.contains cid = true := by
                    simp only [List.contains_eq_any_beq, List.any_eq_true]
                    refine ⟨cid, List.mem_flatten.2
                      ⟨a.avoid, List.mem_map.2 ⟨a, ha, rfl⟩, hmem⟩, ?_⟩
                    simp
                  rw [hflat] at this
                  cases this

theorem updateFirst_decomp {p : α → Bool} {f : α → α} {l : List α}
    (h : ∃ x ∈ l, p x = true) :
    ∃ l1 x l2, l = l1 ++ x :: l2 ∧ p x = true ∧
      updateFirst p f l = l1 ++ f x :: l2 := by
  induction l with
  | nil => simp at h
  | cons a rest ih =>
    by_cases ha : p a = true
    · exact ⟨[], a, rest, rfl, ha, by simp [updateFirst, ha]⟩
    · have h' : ∃ x ∈ rest, p x = true := by
        obtain ⟨x, hx, hpx⟩ := h
        rcases List.mem_cons.1 hx with rfl | hx'
        · exact absurd hpx ha
        · exact ⟨x, hx', hpx⟩
      obtain ⟨l1, x, l2, heq, hpx, hupd⟩ := ih h'
      refine ⟨a :: l1, x, l2, by simp [heq], hpx, ?_⟩
      simp only [updateFirst, ha, Bool.false_eq_true, if_false, List.cons_append,
        List.cons.injEq, true_and]
      exact hupd

/-- The head of `sortNodesWithLeastConsumption` is a member of the input on
which every bundle member passes `canNodeAddService`. -/
theorem sortNodes_head_viable (k : KubeletFn) (nodesIn : List Node)
    (ss bundle : List Service) (wls : List Workload) (mss : List MachineSet)
    (nodeToRun : Node)
    (hhead : (sortNodesWithLeastConsumption k nodesIn ss bundle wls mss).head? =
      some nodeToRun) :
    nodeToRun ∈ nodesIn ∧
      ∀ c ∈ bundle, canNodeAddService k nodeToRun c ss wls mss = true := by
  unfold sortNodesWithLeastConsumption at hhead
  obtain ⟨ys, hys⟩ := List.head?_eq_some_iff.1 hhead
  have hmem : nodeToRun ∈ List.insertionSort (fun a b => nodeConsLE ss a b = true)
      (nodesIn.filter (fun node => bundle.all (fun candidate =>
        canNodeAddService k node candidate ss wls mss))) := by
    rw [hys]
    exact List.mem_cons_self _ _
  have hfil := (List.perm_insertionSort
    (fun a b => nodeConsLE ss a b = true) _).mem_iff.1 hmem
  have hmf := List.mem_filter.1 hfil
  exact ⟨hmf.1, by
    intro c hc
    have := hmf.2
    rw [List.all_eq_true] at this
    exact this c hc⟩

/-- Case characterisation of a successful `addServiceToZone` over a node
list with pairwise-distinct ids: either the bundle was appended to a viable
node of the zone, or a fresh node was created, or (no owner, no viable
node) the call was a silent no-op. -/
theorem addServiceToZone_cases (k : KubeletFn) (zone : Zone) (nodes : List Node)
    (ss bundle : List Service) (wls : List Workload) (mss : List MachineSet)
    (ctr : Nat) (nodes' : List Node) (zone' : Zone) (ctr' : Nat)
    (hids : (nodes.map (·.id)).Nodup)
    (hadd : addServiceToZone k zone nodes ss bundle wls mss ctr =
      some (nodes', zone', ctr')) :
    (∃ l1 nodeToRun l2,
      ctr' = ctr ∧ zone' = zone ∧
      nodes = l1 ++ nodeToRun :: l2 ∧
      nodes' = l1 ++
        ({ nodeToRun with
           services := nodeToRun.services ++ bundle.filterMap (·.id) } : Node) :: l2 ∧
      (∀ c ∈ bundle, canNodeAddService k nodeToRun c ss wls mss = true)) ∨
    (∃ w ms,
      wls.find? (fun wl =>
        match bundle.head?.bind (·.id) with
        | some i => wl.services.contains i
        | none => false) = some w ∧
      getMachineSetForWorkload w mss = some ms ∧
      ctr' = ctr + 1 ∧
      nodes' = nodes ++
        [{ (getNode ms ctr).1 with services := bundle.filterMap (·.id) }] ∧
      zone' = { zone with nodes := zone.nodes ++ [ctr + 1] }) ∨
    (nodes' = nodes ∧ zone' = zone ∧ ctr' = ctr ∧
      wls.find? (fun wl =>
        match bundle.head?.bind (·.id) with
        | some i => wl.services.contains i
        | none => false) = none) := by
  unfold addServiceToZone at hadd
  dsimp only at hadd
  split at hadd
  · next nodeToRun hhead =>
    left
    simp only [Option.some.injEq, Prod.mk.injEq] at hadd
    obtain ⟨h1, h2, h3⟩ := hadd
    obtain ⟨hmemfil, hviab⟩ := sortNodes_head_viable k _ ss bundle wls mss nodeToRun hhead
    have hmem : nodeToRun ∈ nodes := List.mem_of_mem_filter hmemfil
    obtain ⟨l1, x, l2, heq, hpx, hupd⟩ := updateFirst_decomp
      (p := fun n => n.id == nodeToRun.id)
      (f := fun n => { n with services := n.services ++ bundle.filterMap (·.id) })
      ⟨nodeToRun, hmem, by simp⟩
    have hxid : x.id = nodeToRun.id := by simpa using hpx
    have hxmem : x ∈ nodes := heq ▸ List.mem_append_right _ (List.mem_cons_self _ _)
    have hx : x = nodeToRun :=
      List.inj_on_of_nodup_map hids hxmem hmem hxid
    subst hx
    exact ⟨l1, x, l2, h3.symm, h2.symm, heq, by rw [← h1, hupd], hviab⟩
  · next hhead =>
    split at hadd
    · next hfind =>
      right; right
      simp only [Option.some.injEq, Prod.mk.injEq] at hadd
      exact ⟨hadd.1.symm, hadd.2.1.symm, hadd.2.2.symm, hfind⟩
    · next w hfind =>
      split at hadd
      · exact absurd hadd (by simp)
      · next ms hms =>
        right; left
        simp only [Option.some.injEq, Prod.mk.injEq] at hadd
        obtain ⟨h1, h2, h3⟩ := hadd
        refine ⟨w, ms, hfind, hms, ?_, ?_, ?_⟩
        · rw [← h3]; rfl
        · rw [← h1]
        · rw [← h2]; rfl

theorem contains_append_nat (l1 l2 : List Nat) (i : Nat) :
    (l1 ++ l2).contains i = (l1.contains i || l2.contains i) := by
  simp [List.contains_eq_any_beq, List.any_append]

/-- The services placed on a node after appending ids split as a filter on
the disjunction of the two membership tests. -/
theorem placed_append (n : Node) (new : List Nat) (ss : List Service) :
    getServicesInNode ({ n with services := n.services ++ new }) ss =
      ss.filter (fun s =>
        (match s.id with
         | some i => n.services.contains i
         | none => false) ||
        (match s.id with
         | some i => new.contains i
         | none => false)) := by
  unfold getServicesInNode
  apply List.filter_congr
  intro s _
  cases s.id with
  | none => rfl
  | some i => exact contains_append_nat n.services new i

/-- Elements of `ss` whose id lies in the id set of the bundle
`h :: rest` (one-hop members of `h`) all belong to `h`'s adjusted candidate
list `coplaced(h) ++ [h]`. -/
theorem bundle_filter_subset_adjusted (ss : List Service) (h : Service)
    (rest : List Service) (huniq : UniqueIds ss) (hh_mem : h ∈ ss)
    (cid : Nat) (hh_id : h.id = some cid)
    (hrest : ∀ m ∈ rest, m ∈ ss ∧ ∃ i, m.id = some i ∧ i ∈ h.runsWith) :
    ∀ x ∈ ss.filter (fun s =>
      match s.id with
      | some i => ((h :: rest).filterMap (·.id)).contains i
      | none => false),
      x ∈ (ss.filter (fun s =>
        match s.id with
        | some i => h.runsWith.contains i
        | none => false)) ++ [h] := by
  intro x hx
  obtain ⟨hxss, hxq⟩ := List.mem_filter.1 hx
  cases hxid : x.id with
  | none => rw [hxid] at hxq; cases hxq
  | some i =>
    rw [hxid] at hxq
    have hi : i ∈ (h :: rest).filterMap (·.id) := by simpa using hxq
    rw [List.filterMap_cons, hh_id] at hi
    rcases List.mem_cons.1 hi with rfl | hi'
    · have : x = h := uniqueIds_inj huniq hxss hh_mem hxid hh_id
      subst this
      exact List.mem_append_right _ (List.mem_singleton.2 rfl)
    · obtain ⟨m, hm_rest, hm_id⟩ := List.mem_filterMap.1 hi'
      obtain ⟨hm_ss, i', hm_id', hi'_rw⟩ := hrest m hm_rest
      have hii : i' = i := by
        rw [hm_id] at hm_id'
        injection hm_id' with hii'
        exact hii'.symm
      subst hii
      have hxm : x = m := uniqueIds_inj huniq hxss hm_ss hxid hm_id
      subst hxm
      refine List.mem_append_left _ (List.mem_filter.2 ⟨hxss, ?_⟩)
      rw [hxid]
      simpa using hi'_rw

/-- The filtered bundle members form a list with no duplicates. -/
theorem bundle_filter_nodup (ss : List Service) (q : Nat → Bool)
    (huniq : UniqueIds ss) :
    (ss.filter (fun s =>
      match s.id with
      | some i => q i
      | none => false)).Nodup := by
  apply nodup_of_nodup_ids
  · have huniq' : (ss.filterMap (·.id)).Nodup := huniq
    exact (List.Sublist.filterMap (·.id) (List.filter_sublist ss)).nodup huniq'
  · intro s hs
    have := (List.mem_filter.1 hs).2
    cases hsid : s.id with
    | none => rw [hsid] at this; cases this
    | some i => simp [hsid]

/-- Appending a one-hop bundle to a node that passed the head's capacity
check keeps the capacity invariant on that node. -/
theorem capacity_append_of_canSupport (k : KubeletFn) (ss : List Service) (n : Node)
    (h : Service) (rest : List Service)
    (huniq : UniqueIds ss)
    (hnonneg : ∀ s ∈ ss, 0 ≤ s.requiredCPU ∧ 0 ≤ s.requiredMemory)
    (hh_mem : h ∈ ss) (cid : Nat) (hh_id : h.id = some cid)
    (hrest : ∀ m ∈ rest, m ∈ ss ∧ ∃ i, m.id = some i ∧ i ∈ h.runsWith)
    (hsup : canNodeSupportRequirements k
      (getTotalResourceRequirement ((ss.filter (fun s =>
        match s.id with
        | some i => h.runsWith.contains i
        | none => false)) ++ [h]))
      (getTotalResourceRequirement (getServicesInNode n ss)) n = true) :
    nodeCapacityOK k ss
      ({ n with services := n.services ++ (h :: rest).filterMap (·.id) }) := by
  rw [canNodeSupportRequirements_iff] at hsup
  unfold nodeCapacityOK
  rw [placed_append]
  have hsubs := bundle_filter_subset_adjusted ss h rest huniq hh_mem cid hh_id hrest
  have hnodupQ := bundle_filter_nodup ss
    (fun i => ((h :: rest).filterMap (·.id)).contains i) huniq
  have hP : ss.filter (fun s =>
      match s.id with
      | some i => n.services.contains i
      | none => false) = getServicesInNode n ss := rfl
  -- componentwise bounds
  have hcpu :
      sumCPU (ss.filter (fun s =>
        ((match s.id with
          | some i => n.services.contains i
          | none => false) ||
         (match s.id with
          | some i => ((h :: rest).filterMap (·.id)).contains i
          | none => false)))) ≤
      sumCPU (getServicesInNode n ss) +
      sumCPU ((ss.filter (fun s =>
        match s.id with
        | some i => h.runsWith.contains i
        | none => false)) ++ [h]) := by
    unfold sumCPU
    have h1 := sum_map_filter_or_le (M := ℚ) (fun s : Service => s.requiredCPU)
      (fun s => match s.id with
        | some i => n.services.contains i
        | none => false)
      (fun s => match s.id with
        | some i => ((h :: rest).filterMap (·.id)).contains i
        | none => false)
      (l := ss) (fun s hs => (hnonneg s hs).1)
    have h2 := sum_map_le_of_nodup_subset (M := ℚ) (fun s : Service => s.requiredCPU)
      hnodupQ hsubs (by
        intro x hx
        rcases List.mem_append.1 hx with hx' | hx'
        · exact (hnonneg x (List.mem_of_mem_filter hx')).1
        · rcases List.mem_singleton.1 hx' with rfl
          exact (hnonneg x hh_mem).1)
    rw [hP] at h1
    calc _ ≤ _ := h1
    _ ≤ _ := add_le_add_left h2 _
  have hmem :
      sumMem (ss.filter (fun s =>
        ((match s.id with
          | some i => n.services.contains i
          | none => false) ||
         (match s.id with
          | some i => ((h :: rest).filterMap (·.id)).contains i
          | none => false)))) ≤
      sumMem (getServicesInNode n ss) +
      sumMem ((ss.filter (fun s =>
        match s.id with
        | some i => h.runsWith.contains i
        | none => false)) ++ [h]) := by
    unfold sumMem
    have h1 := sum_map_filter_or_le (M := ℚ) (fun s : Service => s.requiredMemory)
      (fun s => match s.id with
        | some i => n.services.contains i
        | none => false)
      (fun s => match s.id with
        | some i => ((h :: rest).filterMap (·.id)).contains i
        | none => false)
      (l := ss) (fun s hs => (hnonneg s hs).2)
    have h2 := sum_map_le_of_nodup_subset (M := ℚ) (fun s : Service => s.requiredMemory)
      hnodupQ hsubs (by
        intro x hx
        rcases List.mem_append.1 hx with hx' | hx'
        · exact (hnonneg x (List.mem_of_mem_filter hx')).2
        · rcases List.mem_singleton.1 hx' with rfl
          exact (hnonneg x hh_mem).2)
    rw [hP] at h1
    calc _ ≤ _ := h1
    _ ≤ _ := add_le_add_left h2 _
  have hdisks :
      countDisks (ss.filter (fun s =>
        ((match s.id with
          | some i => n.services.contains i
          | none => false) ||
         (match s.id with
          | some i => ((h :: rest).filterMap (·.id)).contains i
          | none => false)))) ≤
      countDisks (getServicesInNode n ss) +
      countDisks ((ss.filter (fun s =>
        match s.id with
        | some i => h.runsWith.contains i
        | none => false)) ++ [h]) := by
    rw [countDisks_eq_sum, countDisks_eq_sum, countDisks_eq_sum]
    have h1 := sum_map_filter_or_le (M := ℕ)
      (fun s : Service => if strContains s.name "Ceph_OSD" then 1 else 0)
      (fun s => match s.id with
        | some i => n.services.contains i
        | none => false)
      (fun s => match s.id with
        | some i => ((h :: rest).filterMap (·.id)).contains i
        | none => false)
      (l := ss) (fun _ _ => Nat.zero_le _)
    have h2 := sum_map_le_of_nodup_subset (M := ℕ)
      (fun s : Service => if strContains s.name "Ceph_OSD" then 1 else 0)
      hnodupQ hsubs (fun _ _ => Nat.zero_le _)
    rw [hP] at h1
    calc _ ≤ _ := h1
    _ ≤ _ := add_le_add_left h2 _
  simp only [gtr_eq] at hsup
  obtain ⟨hs1, hs2, hs3⟩ := hsup
  simp only [gtr_eq]
  refine ⟨?_, ?_, ?_⟩
  · linarith [hcpu]
  · linarith [hmem]
  · omega

/-- A service of `ss` whose id lies in a bundle's id set is one of the
bundle's members (ids are unique and the bundle lives in `ss`). -/
theorem bundle_filter_member (ss bundle : List Service)
    (huniq : UniqueIds ss) (hbs : ∀ m ∈ bundle, m ∈ ss)
    {x : Service} (hxss : x ∈ ss)
    (hxq : (match x.id with
      | some i => (bundle.filterMap (·.id)).contains i
      | none => false) = true) :
    x ∈ bundle := by
  cases hxid : x.id with
  | none => rw [hxid] at hxq; cases hxq
  | some i =>
    rw [hxid] at hxq
    have hi : i ∈ bundle.filterMap (·.id) := by simpa using hxq
    obtain ⟨m, hm, hmid⟩ := List.mem_filterMap.1 hi
    have : x = m := uniqueIds_inj huniq hxss (hbs m hm) hxid hmid
    exact this ▸ hm

/-- Membership in a one-hop bundle `h :: rest` implies the neighbourhood
characterisation relative to its head. -/
theorem bundle_member_nbhd (h : Service) (rest : List Service)
    (hrest : ∀ m ∈ rest, ∃ i, m.id = some i ∧ i ∈ h.runsWith)
    {x : Service} (hx : x ∈ h :: rest) :
    x = h ∨ ∃ i, x.id = some i ∧ i ∈ h.runsWith := by
  rcases List.mem_cons.1 hx with rfl | hx'
  · exact Or.inl rfl
  · exact Or.inr (hrest x hx')

/-- Appending a one-hop bundle whose members all passed the anti-affinity
checks keeps the anti-affinity invariant on the node, provided the bundle
is internally avoid-free. -/
theorem avoid_append_of_checks (ss : List Service) (n : Node)
    (h : Service) (rest : List Service)
    (huniq : UniqueIds ss)
    (hh_mem : h ∈ ss)
    (hrest : ∀ m ∈ rest, m ∈ ss ∧ ∃ i, m.id = some i ∧ i ∈ h.runsWith)
    (hpair : ∀ t ∈ ss, ∀ u ∈ ss,
      (t = h ∨ ∃ i, t.id = some i ∧ i ∈ h.runsWith) →
      (u = h ∨ ∃ i, u.id = some i ∧ i ∈ h.runsWith) →
      t ≠ u → ∀ i, u.id = some i → i ∉ t.avoid)
    (hold : nodeAvoidOK ss n)
    (hchk : ∀ c ∈ h :: rest,
      (∀ i ∈ c.avoid, n.services.contains i = false) ∧
      (∀ a ∈ getServicesInNode n ss, ∀ i, c.id = some i → i ∉ a.avoid)) :
    nodeAvoidOK ss ({ n with services := n.services ++ (h :: rest).filterMap (·.id) }) := by
  have hbs : ∀ m ∈ h :: rest, m ∈ ss := by
    intro m hm
    rcases List.mem_cons.1 hm with rfl | hm'
    · exact hh_mem
    · exact (hrest m hm').1
  unfold nodeAvoidOK
  rw [placed_append]
  intro a ha b hb hab i hbi
  obtain ⟨hass, hapq⟩ := List.mem_filter.1 ha
  obtain ⟨hbss, hbpq⟩ := List.mem_filter.1 hb
  rw [Bool.or_eq_true] at hapq hbpq
  have hPa : (match a.id with
      | some j => n.services.contains j
      | none => false) = true → a ∈ getServicesInNode n ss :=
    fun hp => List.mem_filter.2 ⟨hass, hp⟩
  have hPb : (match b.id with
      | some j => n.services.contains j
      | none => false) = true → b ∈ getServicesInNode n ss :=
    fun hp => List.mem_filter.2 ⟨hbss, hp⟩
  rcases hapq with hpa | hqa <;> rcases hbpq with hpb | hqb
  · exact hold a (hPa hpa) b (hPb hpb) hab i hbi
  · -- a existing, b a bundle member: b's second check on a
    have hbmem := bundle_filter_member ss (h :: rest) huniq hbs hbss hqb
    exact (hchk b hbmem).2 a (hPa hpa) i hbi
  · -- a a bundle member, b existing: a's first check forbids i on the node
    have hamem := bundle_filter_member ss (h :: rest) huniq hbs hass hqa
    intro hiav
    have h1 := (hchk a hamem).1 i hiav
    rw [hbi] at hpb
    dsimp only at hpb
    rw [h1] at hpb
    cases hpb
  · -- both bundle members: internal avoid-freedom
    have hamem := bundle_filter_member ss (h :: rest) huniq hbs hass hqa
    have hbmem := bundle_filter_member ss (h :: rest) huniq hbs hbss hqb
    exact hpair a hass b hbss
      (bundle_member_nbhd h rest (fun m hm => (hrest m hm).2) hamem)
      (bundle_member_nbhd h rest (fun m hm => (hrest m hm).2) hbmem) hab i hbi

/-- `getMachineSetForWorkload` only returns MachineSets of its input. -/
theorem getMachineSetForWorkload_mem (w : Workload) (mss : List MachineSet)
    (ms : MachineSet) (h : getMachineSetForWorkload w mss = some ms) :
    ms ∈ mss := by
  unfold getMachineSetForWorkload at h
  split at h
  · next hded => exact List.mem_of_find?_eq_some (Option.some.inj h ▸ hded)
  · split at h
    · exact List.mem_of_find?_eq_some h
    · split at h
      · next hdef => exact List.mem_of_find?_eq_some (Option.some.inj h ▸ hdef)
      · cases mss with
        | nil => cases h
        | cons m rest =>
          have : m = ms := by simpa using h
          exact this ▸ List.mem_cons_self _ _

/-- `areServicesSchedulable` as the three inequalities. -/
theorem areServicesSchedulable_iff (k : KubeletFn) (services : List Service)
    (machineSet : MachineSet) :
    areServicesSchedulable k services machineSet = true ↔
      (getTotalResourceRequirement services).totalMem + k.mem machineSet.memory ≤
        machineSet.memory ∧
      (getTotalResourceRequirement services).totalCPU + k.cpu machineSet.cpu ≤
        machineSet.cpu ∧
      (getTotalResourceRequirement services).totalDisks ≤ machineSet.numberOfDisks := by
  unfold areServicesSchedulable
  simp [and_assoc]

/-- `UniqueIds` descends along sublists. -/
theorem UniqueIds.sublist {l L : List Service} (hs : List.Sublist l L) (h : UniqueIds L) :
    UniqueIds l := by
  have h' : (L.filterMap (·.id)).Nodup := h
  exact (hs.filterMap (·.id)).nodup h'

/-- In a list with unique ids, `find?` by id returns the member carrying
that id. -/
theorem find?_id_eq_some (so : List Service) (huniq : UniqueIds so)
    {m : Service} {i : Nat} (hm : m ∈ so) (hmid : m.id = some i) :
    so.find? (fun s => s.id == some i) = some m := by
  cases hfind : so.find? (fun s => s.id == some i) with
  | none =>
    exfalso
    have := List.find?_eq_none.1 hfind m hm
    apply this
    simp [hmid]
  | some x =>
    have hp := List.find?_some hfind
    have hx := List.mem_of_find?_eq_some hfind
    have hxid : x.id = some i := by simpa using hp
    rw [uniqueIds_inj huniq hx hm hxid hmid]

/-- Validation of the candidate's own full `runsWith` group transfers to the
fresh node created for any one-hop bundle of the candidate: the new node
satisfies the capacity invariant. -/
theorem newnode_capacity_of_val (k : KubeletFn) (ss so : List Service)
    (huniq : UniqueIds ss) (hso_sub : ∀ x ∈ so, x ∈ ss) (hso_uniq : UniqueIds so)
    (hnonneg : ∀ s ∈ ss, 0 ≤ s.requiredCPU ∧ 0 ≤ s.requiredMemory)
    (cand : Service) (cid : Nat) (hcand_id : cand.id = some cid)
    (hcand_so : cand ∈ so)
    (rest : List Service)
    (hrest : ∀ m ∈ rest, m ∈ so ∧ ∃ i, m.id = some i ∧ i ∈ cand.runsWith)
    (ms : MachineSet) (ctr : Nat)
    (hval : areServicesSchedulable k
      (cand :: cand.runsWith.filterMap (fun rid =>
        so.find? (fun s => s.id == some rid))) ms = true) :
    nodeCapacityOK k ss
      ({ (getNode ms ctr).1 with services := (cand :: rest).filterMap (·.id) }) := by
  rw [areServicesSchedulable_iff] at hval
  obtain ⟨hv_mem, hv_cpu, hv_disks⟩ := hval
  have hplaced : getServicesInNode
      ({ (getNode ms ctr).1 with services := (cand :: rest).filterMap (·.id) }) ss =
      ss.filter (fun s =>
        match s.id with
        | some i => ((cand :: rest).filterMap (·.id)).contains i
        | none => false) := rfl
  have hsubs : ∀ x ∈ ss.filter (fun s =>
      match s.id with
      | some i => ((cand :: rest).filterMap (·.id)).contains i
      | none => false),
      x ∈ cand :: cand.runsWith.filterMap (fun rid =>
        so.find? (fun s => s.id == some rid)) := by
    intro x hx
    obtain ⟨hxss, hxq⟩ := List.mem_filter.1 hx
    cases hxid : x.id with
    | none => rw [hxid] at hxq; cases hxq
    | some i =>
      rw [hxid] at hxq
      have hi : i ∈ (cand :: rest).filterMap (·.id) := by simpa using hxq
      rw [List.filterMap_cons, hcand_id] at hi
      rcases List.mem_cons.1 hi with rfl | hi'
      · have : x = cand := uniqueIds_inj huniq hxss (hso_sub cand hcand_so) hxid hcand_id
        exact this ▸ List.mem_cons_self _ _
      · obtain ⟨m, hm_rest, hm_id⟩ := List.mem_filterMap.1 hi'
        obtain ⟨hm_so, i', hm_id', hi'_rw⟩ := hrest m hm_rest
        have hii : i' = i := by
          rw [hm_id] at hm_id'
          injection hm_id' with hii'
          exact hii'.symm
        have hm_id2 : m.id = some i := hii ▸ hm_id'
        have hrw2 : i ∈ cand.runsWith := hii ▸ hi'_rw
        have hxm : x = m := uniqueIds_inj huniq hxss (hso_sub m hm_so) hxid hm_id
        subst hxm
        refine List.mem_cons_of_mem _ (List.mem_filterMap.2 ⟨i, hrw2, ?_⟩)
        exact find?_id_eq_some so hso_uniq hm_so hm_id2
  have hnodupQ := bundle_filter_nodup ss
    (fun i => ((cand :: rest).filterMap (·.id)).contains i) huniq
  have hVB_ss : ∀ x ∈ cand :: cand.runsWith.filterMap (fun rid =>
      so.find? (fun s => s.id == some rid)), x ∈ ss := by
    intro x hx
    rcases List.mem_cons.1 hx with rfl | hx'
    · exact hso_sub x hcand_so
    · obtain ⟨rid, _, hfind⟩ := List.mem_filterMap.1 hx'
      exact hso_sub x (List.mem_of_find?_eq_some hfind)
  unfold nodeCapacityOK
  rw [hplaced]
  have hcpu := sum_map_le_of_nodup_subset (M := ℚ) (fun s : Service => s.requiredCPU)
    hnodupQ hsubs (fun x hx => (hnonneg x (hVB_ss x hx)).1)
  have hmem := sum_map_le_of_nodup_subset (M := ℚ) (fun s : Service => s.requiredMemory)
    hnodupQ hsubs (fun x hx => (hnonneg x (hVB_ss x hx)).2)
  have hdsk := sum_map_le_of_nodup_subset (M := ℕ)
    (fun s : Service => if strContains s.name "Ceph_OSD" then 1 else 0)
    hnodupQ hsubs (fun _ _ => Nat.zero_le _)
  simp only [gtr_eq] at hv_mem hv_cpu hv_disks ⊢
  unfold sumCPU sumMem at *
  rw [countDisks_eq_sum] at hv_disks ⊢
  have e1 : (getNode ms ctr).1.cpuUnits = ms.cpu := rfl
  have e2 : (getNode ms ctr).1.memory = ms.memory := rfl
  have e3 : (getNode ms ctr).1.maxDisks = ms.numberOfDisks := rfl
  rw [e1, e2, e3]
  refine ⟨by linarith [hcpu], by linarith [hmem], le_trans hdsk hv_disks⟩

/-- The fresh node created for an internally avoid-free one-hop bundle
satisfies the anti-affinity invariant. -/
theorem newnode_avoid_of_pair (ss : List Service) (node0 : Node)
    (cand : Service) (rest : List Service)
    (huniq : UniqueIds ss)
    (hcand_ss : cand ∈ ss)
    (hrest : ∀ m ∈ rest, m ∈ ss ∧ ∃ i, m.id = some i ∧ i ∈ cand.runsWith)
    (hpair : ∀ t ∈ ss, ∀ u ∈ ss,
      (t = cand ∨ ∃ i, t.id = some i ∧ i ∈ cand.runsWith) →
      (u = cand ∨ ∃ i, u.id = some i ∧ i ∈ cand.runsWith) →
      t ≠ u → ∀ i, u.id = some i → i ∉ t.avoid) :
    nodeAvoidOK ss ({ node0 with services := (cand :: rest).filterMap (·.id) }) := by
  have hbs : ∀ m ∈ cand :: rest, m ∈ ss := by
    intro m hm
    rcases List.mem_cons.1 hm with rfl | hm'
    · exact hcand_ss
    · exact (hrest m hm').1
  intro a ha b hb hab i hbi
  have hplaced : getServicesInNode
      ({ node0 with services := (cand :: rest).filterMap (·.id) }) ss =
      ss.filter (fun s =>
        match s.id with
        | some j => ((cand :: rest).filterMap (·.id)).contains j
        | none => false) := rfl
  rw [hplaced] at ha hb
  obtain ⟨hass, haq⟩ := List.mem_filter.1 ha
  obtain ⟨hbss, hbq⟩ := List.mem_filter.1 hb
  have hamem := bundle_filter_member ss (cand :: rest) huniq hbs hass haq
  have hbmem := bundle_filter_member ss (cand :: rest) huniq hbs hbss hbq
  exact hpair a hass b hbss
    (bundle_member_nbhd cand rest (fun m hm => (hrest m hm).2) hamem)
    (bundle_member_nbhd cand rest (fun m hm => (hrest m hm).2) hbmem) hab i hbi

/-- All services request nonnegative cpu and memory. -/
def NonnegReq (ss : List Service) : Prop :=
  ∀ s ∈ ss, 0 ≤ s.requiredCPU ∧ 0 ≤ s.requiredMemory

/-- No anti-affinity edge inside any service's one-hop `runsWith`
neighbourhood (including the service itself). -/
def NbhdAvoidFree (ss : List Service) : Prop :=
  ∀ s ∈ ss, ∀ t ∈ ss, ∀ u ∈ ss,
    (t = s ∨ ∃ i, t.id = some i ∧ i ∈ s.runsWith) →
    (u = s ∨ ∃ i, u.id = some i ∧ i ∈ s.runsWith) →
    t ≠ u → ∀ i, u.id = some i → i ∉ t.avoid

/-- The node-level invariant threaded through the scheduler state: distinct
node ids bounded by the counter, no control-plane nodes, and — under the
respective side conditions — the capacity and anti-affinity invariants on
every node. -/
structure StateInv (k : KubeletFn) (ss : List Service) (st : SizerState) : Prop where
  ids_nodup : (st.nodes.map (·.id)).Nodup
  ids_le : ∀ n ∈ st.nodes, n.id ≤ st.nodeIdCounter
  noncp : ∀ n ∈ st.nodes, n.isControlPlane = false
  cap : NonnegReq ss → ∀ n ∈ st.nodes, nodeCapacityOK k ss n
  avoidOK : NbhdAvoidFree ss → ∀ n ∈ st.nodes, nodeAvoidOK ss n

/-- One `placeBundleOnce` step with a one-hop bundle over a single
non-control-plane MachineSet preserves the state invariant and can only
grow the node id counter. -/
theorem placeBundleOnce_inv (k : KubeletFn) (ss : List Service) (ms0 : MachineSet)
    (hms0 : (ms0.name == "controlPlane") = false)
    (w : Workload) (bundle : List Service) (cand : Service) (rest : List Service)
    (hb : bundle = cand :: rest)
    (cid : Nat) (hcand_id : cand.id = some cid)
    (hcand_ss : cand ∈ ss)
    (hrest : ∀ m ∈ rest, m ∈ ss ∧ ∃ i, m.id = some i ∧ i ∈ cand.runsWith)
    (huniq : UniqueIds ss)
    (hfitnew : ∀ ctr, NonnegReq ss → nodeCapacityOK k ss
      ({ (getNode ms0 ctr).1 with services := bundle.filterMap (·.id) }))
    (st st' : SizerState)
    (hp : placeBundleOnce k w ss [ms0] bundle st = some st')
    (hinv : StateInv k ss st) :
    StateInv k ss st' ∧ st.nodeIdCounter ≤ st'.nodeIdCounter := by
  subst hb
  unfold placeBundleOnce at hp
  split at hp
  · cases hp
  · next bestZone used' hsel =>
    split at hp
    · cases hp
    · next nodes' zone' nodeCtr' hadd =>
      have hst' := Option.some.inj hp
      subst hst'
      rcases addServiceToZone_cases k bestZone st.nodes ss (cand :: rest) [w] [ms0]
          st.nodeIdCounter nodes' zone' nodeCtr' hinv.ids_nodup hadd with
        ⟨l1, nodeToRun, l2, hctr, hzeq, hnodes_eq, hnodes'_eq, hviab⟩ |
        ⟨w', ms, hfindw, hms, hctr, hnodes'_eq, hzeq⟩ |
        ⟨hnodes'_eq, hzeq, hctr, hfindw⟩
      · -- bundle appended to an existing viable node
        have hrun_mem : nodeToRun ∈ st.nodes := by
          rw [hnodes_eq]
          exact List.mem_append_right _ (List.mem_cons_self _ _)
        have hrun_cp : nodeToRun.isControlPlane = false := hinv.noncp nodeToRun hrun_mem
        have hmem_nodes' : ∀ n ∈ nodes',
            n = ({ nodeToRun with
              services := nodeToRun.services ++ (cand :: rest).filterMap (·.id) } : Node) ∨
            n ∈ st.nodes := by
          intro n hn
          rw [hnodes'_eq] at hn
          rcases List.mem_append.1 hn with h1 | h2
          · right; rw [hnodes_eq]; exact List.mem_append_left _ h1
          · rcases List.mem_cons.1 h2 with rfl | h3
            · left; rfl
            · right; rw [hnodes_eq]
              exact List.mem_append_right _ (List.mem_cons_of_mem _ h3)
        refine ⟨⟨?_, ?_, ?_, ?_, ?_⟩, ?_⟩
        · show (nodes'.map (·.id)).Nodup
          have : nodes'.map (·.id) = st.nodes.map (·.id) := by
            rw [hnodes'_eq, hnodes_eq]
            simp
          rw [this]
          exact hinv.ids_nodup
        · intro n hn
          show n.id ≤ nodeCtr'
          rw [hctr]
          rcases hmem_nodes' n hn with rfl | hmem
          · exact hinv.ids_le nodeToRun hrun_mem
          · exact hinv.ids_le n hmem
        · intro n hn
          rcases hmem_nodes' n hn with rfl | hmem
          · exact hrun_cp
          · exact hinv.noncp n hmem
        · intro hnn n hn
          rcases hmem_nodes' n hn with rfl | hmem
          · exact capacity_append_of_canSupport k ss nodeToRun cand rest huniq hnn
              hcand_ss cid hcand_id hrest
              (canNodeAddService_capacity k nodeToRun cand ss [w] [ms0] hrun_cp
                (hviab cand (List.mem_cons_self _ _)))
          · exact hinv.cap hnn n hmem
        · intro hnbhd n hn
          rcases hmem_nodes' n hn with rfl | hmem
          · refine avoid_append_of_checks ss nodeToRun cand rest huniq hcand_ss hrest
              (hnbhd cand hcand_ss) (hinv.avoidOK hnbhd nodeToRun hrun_mem) ?_
            intro c hc
            exact canNodeAddService_avoid k nodeToRun c ss [w] [ms0] hrun_cp (hviab c hc)
          · exact hinv.avoidOK hnbhd n hmem
        · show st.nodeIdCounter ≤ nodeCtr'
          omega
      · -- fresh node created from the single MachineSet
        have hms_mem := getMachineSetForWorkload_mem w' [ms0] ms hms
        have hms_eq : ms = ms0 := by simpa using hms_mem
        subst hms_eq
        have hnew_id : ({ (getNode ms st.nodeIdCounter).1 with
            services := (cand :: rest).filterMap (·.id) } : Node).id =
            st.nodeIdCounter + 1 := rfl
        have hmem_nodes' : ∀ n ∈ nodes',
            n = ({ (getNode ms st.nodeIdCounter).1 with
              services := (cand :: rest).filterMap (·.id) } : Node) ∨
            n ∈ st.nodes := by
          intro n hn
          rw [hnodes'_eq] at hn
          rcases List.mem_append.1 hn with h1 | h2
          · right; exact h1
          · left; simpa using h2
        refine ⟨⟨?_, ?_, ?_, ?_, ?_⟩, ?_⟩
        · show (nodes'.map (·.id)).Nodup
          rw [hnodes'_eq, List.map_append]
          refine List.Nodup.append hinv.ids_nodup (List.nodup_singleton _) ?_
          intro a ha hb'
          have ha' : ∃ n ∈ st.nodes, n.id = a := by
            obtain ⟨n, hn, hna⟩ := List.mem_map.1 ha
            exact ⟨n, hn, hna⟩
          obtain ⟨n, hn, hna⟩ := ha'
          have h1 := hinv.ids_le n hn
          have hb'' : a = st.nodeIdCounter + 1 := by
            simpa [hnew_id] using hb'
          omega
        · intro n hn
          show n.id ≤ nodeCtr'
          rw [hctr]
          rcases hmem_nodes' n hn with rfl | hmem
          · rw [hnew_id]
          · have := hinv.ids_le n hmem
            omega
        · intro n hn
          rcases hmem_nodes' n hn with rfl | hmem
          · exact hms0
          · exact hinv.noncp n hmem
        · intro hnn n hn
          rcases hmem_nodes' n hn with rfl | hmem
          · exact hfitnew st.nodeIdCounter hnn
          · exact hinv.cap hnn n hmem
        · intro hnbhd n hn
          rcases hmem_nodes' n hn with rfl | hmem
          · exact newnode_avoid_of_pair ss (getNode ms st.nodeIdCounter).1 cand rest
              huniq hcand_ss hrest (hnbhd cand hcand_ss)
          · exact hinv.avoidOK hnbhd n hmem
        · show st.nodeIdCounter ≤ nodeCtr'
          omega
      · -- silent no-op
        subst hnodes'_eq
        refine ⟨⟨hinv.ids_nodup, ?_, hinv.noncp, hinv.cap, hinv.avoidOK⟩, ?_⟩
        · intro n hn
          show n.id ≤ nodeCtr'
          rw [hctr]
          exact hinv.ids_le n hn
        · show st.nodeIdCounter ≤ nodeCtr'
          omega

/-- `placeBundleTimes` preserves the state invariant. -/
theorem placeBundleTimes_inv (k : KubeletFn) (ss : List Service) (ms0 : MachineSet)
    (hms0 : (ms0.name == "controlPlane") = false)
    (w : Workload) (bundle : List Service) (cand : Service) (rest : List Service)
    (hb : bundle = cand :: rest)
    (cid : Nat) (hcand_id : cand.id = some cid)
    (hcand_ss : cand ∈ ss)
    (hrest : ∀ m ∈ rest, m ∈ ss ∧ ∃ i, m.id = some i ∧ i ∈ cand.runsWith)
    (huniq : UniqueIds ss)
    (hfitnew : ∀ ctr, NonnegReq ss → nodeCapacityOK k ss
      ({ (getNode ms0 ctr).1 with services := bundle.filterMap (·.id) })) :
    ∀ (count : Nat) (st st' : SizerState),
    placeBundleTimes k w ss [ms0] bundle count st = some st' →
    StateInv k ss st →
    StateInv k ss st' := by
  intro count
  induction count with
  | zero =>
    intro st st' hp hinv
    unfold placeBundleTimes at hp
    exact (Option.some.inj hp) ▸ hinv
  | succ n ih =>
    intro st st' hp hinv
    unfold placeBundleTimes at hp
    rcases Option.bind_eq_some.1 hp with ⟨mid, hmid, hrest'⟩
    exact ih mid st' hrest'
      (placeBundleOnce_inv k ss ms0 hms0 w bundle cand rest hb cid hcand_id hcand_ss
        hrest huniq hfitnew st mid hmid hinv).1

/-- One marking step of `getAllCoplacedServices`: an unmarked id marks
itself together with the service's whole `runsWith`. -/
def valMarkStep (marks : List Nat) (cand : Service) : List Nat :=
  match cand.id with
  | none => marks
  | some i => if marks.contains i then marks else marks ++ i :: cand.runsWith

/-- The mark list accumulated by `getAllCoplacedServicesGo` over a prefix. -/
def valMarksFold (l : List Service) (marks : List Nat) : List Nat :=
  l.foldl valMarkStep marks

theorem valMarksFold_append (l1 l2 : List Service) (m : List Nat) :
    valMarksFold (l1 ++ l2) m = valMarksFold l2 (valMarksFold l1 m) := by
  simp [valMarksFold, List.foldl_append]

/-- A service left unmarked by the prefix heads its own group in
`getAllCoplacedServicesGo`: the group is the service plus its resolved
`runsWith` targets. -/
theorem valBundle_mem_go (full : List Service) (cand : Service) (cid : Nat)
    (hcid : cand.id = some cid) :
    ∀ (l1 l2 : List Service) (marks : List Nat),
    (valMarksFold l1 marks).contains cid = false →
    (cand :: cand.runsWith.filterMap (fun rid =>
      full.find? (fun s => s.id == some rid))) ∈
      getAllCoplacedServicesGo full (l1 ++ cand :: l2) marks := by
  intro l1
  induction l1 with
  | nil =>
    intro l2 marks hunm
    have hunm' : marks.contains cid = false := hunm
    show _ ∈ getAllCoplacedServicesGo full (cand :: l2) marks
    unfold getAllCoplacedServicesGo
    rw [hcid]
    dsimp only
    have hnot : ¬ (marks.contains cid = true) := by
      rw [hunm']
      exact Bool.false_ne_true
    rw [if_neg hnot]
    exact List.mem_cons_self _ _
  | cons a l1' ih =>
    intro l2 marks hunm
    show _ ∈ getAllCoplacedServicesGo full (a :: (l1' ++ cand :: l2)) marks
    unfold getAllCoplacedServicesGo
    cases haid : a.id with
    | none =>
      dsimp only
      have hunm' : (valMarksFold l1' marks).contains cid = false := by
        have : valMarksFold (a :: l1') marks = valMarksFold l1' marks := by
          show valMarksFold l1' (valMarkStep marks a) = _
          unfold valMarkStep
          rw [haid]
        rw [this] at hunm
        exact hunm
      exact ih l2 marks hunm'
    | some j =>
      dsimp only
      by_cases hj : marks.contains j = true
      · rw [if_pos hj]
        have hunm' : (valMarksFold l1' marks).contains cid = false := by
          have : valMarksFold (a :: l1') marks = valMarksFold l1' marks := by
            show valMarksFold l1' (valMarkStep marks a) = _
            unfold valMarkStep
            rw [haid]
            dsimp only
            rw [if_pos hj]
          rw [this] at hunm
          exact hunm
        exact ih l2 marks hunm'
      · rw [if_neg hj]
        have hunm' : (valMarksFold l1' (marks ++ j :: a.runsWith)).contains cid = false := by
          have : valMarksFold (a :: l1') marks =
              valMarksFold l1' (marks ++ j :: a.runsWith) := by
            show valMarksFold l1' (valMarkStep marks a) = _
            unfold valMarkStep
            rw [haid]
            dsimp only
            rw [if_neg hj]
          rw [this] at hunm
          exact hunm
        exact List.mem_cons_of_mem _ (ih l2 (marks ++ j :: a.runsWith) hunm')

/-- Relation between the scheduler's mark list and the validation walk's
mark list: they agree on every id of the service list, and the scheduler's
marks are contained in the validation marks. -/
def MarksRel (so : List Service) (m1 m2 : List Nat) : Prop :=
  (∀ s ∈ so, ∀ i, s.id = some i → m1.contains i = m2.contains i) ∧
  (∀ i, m1.contains i = true → m2.contains i = true)

/-- Scheduling an unmarked candidate's one-hop bundle preserves the mark
relation against the validation walk's step (which marks the candidate's
whole `runsWith`). -/
theorem marksRel_step (so : List Service)
    (m1 m2 : List Nat) (hrel : MarksRel so m1 m2)
    (cand : Service) (cid : Nat) (hcid : cand.id = some cid) :
    MarksRel so
      (m1 ++ (getCoplacedServices cand (so.filter (fun s =>
        match s.id with
        | some i => !m1.contains i
        | none => false))).filterMap (·.id))
      (m2 ++ cid :: cand.runsWith) := by
  have hcons : ∀ i : Nat, (cid :: cand.runsWith).contains i = true ↔
      (i = cid ∨ i ∈ cand.runsWith) := by
    intro i
    simp [List.contains_eq_any_beq]
  have h1 : ∀ i : Nat,
      ((getCoplacedServices cand (so.filter (fun s =>
        match s.id with
        | some i => !m1.contains i
        | none => false))).filterMap (·.id)).contains i = true →
      i = cid ∨ i ∈ cand.runsWith := by
    intro i hi
    have hi' : i ∈ (getCoplacedServices cand (so.filter (fun s =>
        match s.id with
        | some i => !m1.contains i
        | none => false))).filterMap (·.id) := by
      simpa [List.contains_eq_any_beq] using hi
    obtain ⟨m, hm, hmid⟩ := List.mem_filterMap.1 hi'
    rcases List.mem_cons.1 hm with rfl | hm'
    · left
      rw [hcid] at hmid
      injection hmid with h
      exact h.symm
    · right
      have hpred := (List.mem_filter.1 hm').2
      rw [Bool.and_eq_true] at hpred
      have := hpred.1
      rw [hmid] at this
      simpa [List.contains_eq_any_beq] using this
  have h2 : ∀ s ∈ so, ∀ i, s.id = some i → m1.contains i = false →
      (i = cid ∨ i ∈ cand.runsWith) →
      ((getCoplacedServices cand (so.filter (fun s =>
        match s.id with
        | some i => !m1.contains i
        | none => false))).filterMap (·.id)).contains i = true := by
    intro s hs i hsid hm1 hor
    by_cases hic : i = cid
    · subst hic
      have : i ∈ (getCoplacedServices cand (so.filter (fun s =>
          match s.id with
          | some i => !m1.contains i
          | none => false))).filterMap (·.id) :=
        List.mem_filterMap.2 ⟨cand, List.mem_cons_self _ _, hcid⟩
      simpa [List.contains_eq_any_beq] using this
    · rcases hor with rfl | hrw
      · exact absurd rfl hic
      · have hsfilt : s ∈ so.filter (fun s =>
            match s.id with
            | some i => !m1.contains i
            | none => false) := by
          refine List.mem_filter.2 ⟨hs, ?_⟩
          rw [hsid]
          dsimp only
          rw [hm1]
          rfl
        have hspred : s ∈ getCoplacedServices cand (so.filter (fun s =>
            match s.id with
            | some i => !m1.contains i
            | none => false)) := by
          refine List.mem_cons_of_mem _ (List.mem_filter.2 ⟨hsfilt, ?_⟩)
          rw [Bool.and_eq_true]
          constructor
          · rw [hsid]
            simpa [List.contains_eq_any_beq] using hrw
          · rw [hsid, hcid]
            simp [hic]
        have : i ∈ (getCoplacedServices cand (so.filter (fun s =>
            match s.id with
            | some i => !m1.contains i
            | none => false))).filterMap (·.id) :=
          List.mem_filterMap.2 ⟨s, hspred, hsid⟩
        simpa [List.contains_eq_any_beq] using this
  constructor
  · intro s hs i hsid
    rw [contains_append_nat, contains_append_nat]
    have hm12 := hrel.1 s hs i hsid
    rw [hm12]
    cases hm2 : m2.contains i with
    | true => simp
    | false =>
      have hm1 : m1.contains i = false := by rw [hm12, hm2]
      simp only [Bool.false_or]
      cases hb : ((getCoplacedServices cand (so.filter (fun s =>
          match s.id with
          | some i => !m1.contains i
          | none => false))).filterMap (·.id)).contains i with
      | true =>
        have := (hcons i).2 (h1 i hb)
        rw [this]
      | false =>
        cases hc : (cid :: cand.runsWith).contains i with
        | false => rfl
        | true =>
          have := h2 s hs i hsid hm1 ((hcons i).1 hc)
          rw [this] at hb
          cases hb
  · intro i hi
    rw [contains_append_nat] at hi ⊢
    rw [Bool.or_eq_true] at hi ⊢
    rcases hi with hi | hi
    · exact Or.inl (hrel.2 i hi)
    · exact Or.inr ((hcons i).2 (h1 i hi))

/-- A list whose `isEmpty` test fails has a member. -/
theorem exists_mem_of_not_isEmpty {α : Type} {l : List α}
    (h : (!l.isEmpty) = true) : ∃ x, x ∈ l := by
  cases l with
  | nil => cases h
  | cons a t => exact ⟨a, List.mem_cons_self _ _⟩

/-- Over a single MachineSet, a passing `isWorkloadSchedulable` guarantees
that every coplaced group of the workload fits that MachineSet. -/
theorem isWorkloadSchedulable_single (k : KubeletFn) (ss : List Service)
    (ms0 : MachineSet) (w : Workload)
    (h : (isWorkloadSchedulable k ss [ms0] w).1 = true) :
    ∀ B ∈ getAllCoplacedServices (getWorkloadServices w ss),
      areServicesSchedulable k B ms0 = true := by
  intro B hB
  have hBs : B ∈ List.insertionSort (fun a b => bundleWeightGE a b = true)
      (getAllCoplacedServices (getWorkloadServices w ss)) :=
    (List.perm_insertionSort _ _).mem_iff.2 hB
  unfold isWorkloadSchedulable at h
  dsimp only at h
  split at h
  · -- usesMachines branch
    split at h
    · next hne =>
      obtain ⟨ms, hms⟩ := exists_mem_of_not_isEmpty hne
      obtain ⟨hms1, hms2⟩ := List.mem_filter.1 hms
      have hms0' : ms = ms0 := by
        have := List.mem_of_mem_filter hms1
        simpa using this
      subst hms0'
      exact List.all_eq_true.1 hms2 B hBs
    · cases h
  · -- dedicated / general branch
    split at h
    · next hded =>
      rw [Bool.and_eq_true] at hded
      have hne := hded.2
      obtain ⟨ms, hms⟩ := exists_mem_of_not_isEmpty hne
      obtain ⟨hms1, hms2⟩ := List.mem_filter.1 hms
      have hms0' : ms = ms0 := by
        have := List.mem_of_mem_filter hms1
        simpa using this
      subst hms0'
      exact List.all_eq_true.1 hms2 B hBs
    · split at h
      · next hne =>
        obtain ⟨ms, hms⟩ := exists_mem_of_not_isEmpty hne
        obtain ⟨hms1, hms2⟩ := List.mem_filter.1 hms
        have hms0' : ms = ms0 := by simpa using hms1
        subst hms0'
        split at hms2
        · cases hms2
        · rw [Bool.and_eq_true] at hms2
          exact List.all_eq_true.1 hms2.2 B hBs
      · cases h

/-- Master induction over the scheduler's walk of a workload's services:
with a single non-control-plane MachineSet, unique ids, and every coplaced
group of the walk validated against that MachineSet, the fold of
`scheduleCandidate` preserves the node-state invariant. The mark lists are
tracked against the validation walk's marks over the processed prefix. -/
theorem scheduler_fold_inv (k : KubeletFn) (ss : List Service) (ms0 : MachineSet)
    (hms0 : (ms0.name == "controlPlane") = false)
    (w : Workload) (so : List Service)
    (hso_sub : ∀ x ∈ so, x ∈ ss)
    (hso_uniq : UniqueIds so)
    (huniq : UniqueIds ss)
    (hval : ∀ B ∈ getAllCoplacedServices so, areServicesSchedulable k B ms0 = true) :
    ∀ (l l1 : List Service) (st : SizerState) (marks : List Nat)
      (stp' : SizerState × List Nat),
    so = l1 ++ l →
    MarksRel so marks (valMarksFold l1 []) →
    List.foldlM (fun stp cand => scheduleCandidate k w so ss [ms0] stp cand)
      (st, marks) l = some stp' →
    StateInv k ss st →
    StateInv k ss stp'.1 := by
  intro l
  induction l with
  | nil =>
    intro l1 st marks stp' hdec hrel hfold hinv
    rw [List.foldlM_nil] at hfold
    have : (st, marks) = stp' := by simpa using hfold
    rw [← this]
    exact hinv
  | cons cand l' ih =>
    intro l1 st marks stp' hdec hrel hfold hinv
    rw [List.foldlM_cons] at hfold
    have hcand_so : cand ∈ so := by
      rw [hdec]
      exact List.mem_append_right _ (List.mem_cons_self _ _)
    have hdec' : so = (l1 ++ [cand]) ++ l' := by
      rw [List.append_assoc]
      simpa using hdec
    cases hstep : scheduleCandidate k w so ss [ms0] (st, marks) cand with
    | none =>
      rw [hstep] at hfold
      simp at hfold
    | some mid =>
      have hfold' : List.foldlM (fun stp cand => scheduleCandidate k w so ss [ms0] stp cand)
          mid l' = some stp' := by
        rw [hstep] at hfold
        exact hfold
      unfold scheduleCandidate at hstep
      dsimp only at hstep
      split at hstep
      · -- candidate without id: skipped
        next hcid =>
        have hmid := Option.some.inj hstep
        refine ih (l1 ++ [cand]) st marks stp' hdec' ?_ (by rw [hmid]; exact hfold') hinv
        have hv : valMarksFold (l1 ++ [cand]) [] = valMarksFold l1 [] := by
          rw [valMarksFold_append]
          show valMarkStep (valMarksFold l1 []) cand = _
          unfold valMarkStep
          rw [hcid]
        rw [hv]
        exact hrel
      · next cid hcid =>
        by_cases hm : marks.contains cid = true
        · -- already marked: skipped
          rw [if_pos hm] at hstep
          have hmid := Option.some.inj hstep
          refine ih (l1 ++ [cand]) st marks stp' hdec' ?_ (by rw [hmid]; exact hfold') hinv
          have hv : valMarksFold (l1 ++ [cand]) [] = valMarksFold l1 [] := by
            rw [valMarksFold_append]
            show valMarkStep (valMarksFold l1 []) cand = _
            unfold valMarkStep
            rw [hcid]
            dsimp only
            rw [if_pos (by rw [← hrel.1 cand hcand_so cid hcid]; exact hm)]
          rw [hv]
          exact hrel
        · -- unmarked: the bundle is placed and marked
          have hmF : marks.contains cid = false := by
            cases hmm : marks.contains cid
            · rfl
            · exact absurd hmm hm
          rw [if_neg hm] at hstep
          have hbne : (getCoplacedServices cand (so.filter (fun s =>
              match s.id with
              | some i => !marks.contains i
              | none => false))).isEmpty = false := rfl
          rw [hbne] at hstep
          rw [if_neg Bool.false_ne_true] at hstep
          rcases Option.map_eq_some'.1 hstep with ⟨st2, hpbt, hmid⟩
          have hvm : (valMarksFold l1 []).contains cid = false := by
            rw [← hrel.1 cand hcand_so cid hcid]
            exact hmF
          have hrestSO : ∀ m ∈ (so.filter (fun s =>
              match s.id with
              | some i => !marks.contains i
              | none => false)).filter (fun s =>
              (match s.id with
               | some i => cand.runsWith.contains i
               | none => false) && s.id != cand.id),
              m ∈ so ∧ ∃ i, m.id = some i ∧ i ∈ cand.runsWith := by
            intro m hm'
            obtain ⟨hm1, hm2⟩ := List.mem_filter.1 hm'
            refine ⟨List.mem_of_mem_filter hm1, ?_⟩
            rw [Bool.and_eq_true] at hm2
            have h21 := hm2.1
            cases hmidv : m.id with
            | none => rw [hmidv] at h21; cases h21
            | some i =>
              rw [hmidv] at h21
              exact ⟨i, rfl, by simpa [List.contains_eq_any_beq] using h21⟩
          have hmemB := valBundle_mem_go so cand cid hcid l1 l' [] hvm
          rw [← hdec] at hmemB
          have hfitB : areServicesSchedulable k
              (cand :: cand.runsWith.filterMap (fun rid =>
                so.find? (fun s => s.id == some rid))) ms0 = true := hval _ hmemB
          have hinv2 : StateInv k ss st2 := by
            refine placeBundleTimes_inv k ss ms0 hms0 w _ cand _ rfl cid hcid
              (hso_sub cand hcand_so) ?_ huniq ?_ _ st st2 hpbt hinv
            · intro m hm'
              obtain ⟨hmso, hex⟩ := hrestSO m hm'
              exact ⟨hso_sub m hmso, hex⟩
            · intro ctr hnn
              exact newnode_capacity_of_val k ss so huniq hso_sub hso_uniq hnn
                cand cid hcid hcand_so _ hrestSO ms0 ctr hfitB
          have hv : valMarksFold (l1 ++ [cand]) [] =
              valMarksFold l1 [] ++ cid :: cand.runsWith := by
            rw [valMarksFold_append]
            show valMarkStep (valMarksFold l1 []) cand = _
            unfold valMarkStep
            rw [hcid]
            dsimp only
            rw [if_neg (by rw [hvm]; exact Bool.false_ne_true)]
          refine ih (l1 ++ [cand]) st2
            (marks ++ (getCoplacedServices cand (so.filter (fun s =>
              match s.id with
              | some i => !marks.contains i
              | none => false))).filterMap (·.id)) stp' hdec' ?_ ?_ hinv2
          · rw [hv]
            exact marksRel_step so marks (valMarksFold l1 []) hrel cand cid hcid
          · rw [hmid]
            exact hfold'

/-- `workloadScheduler` preserves the node-state invariant when the
workload passed validation against the single non-control-plane
MachineSet. -/
theorem workloadScheduler_inv (k : KubeletFn) (ss : List Service) (ms0 : MachineSet)
    (hms0 : (ms0.name == "controlPlane") = false)
    (w : Workload) (st st' : SizerState)
    (huniq : UniqueIds ss)
    (hvalid : (isWorkloadSchedulable k ss [ms0] w).1 = true)
    (hws : workloadScheduler k w ss [ms0] st = some st')
    (hinv : StateInv k ss st) :
    StateInv k ss st' := by
  unfold workloadScheduler at hws
  dsimp only at hws
  rcases Option.map_eq_some'.1 hws with ⟨stp, hfold, hst'⟩
  have hso_sub : ∀ x ∈ getWorkloadServices w ss, x ∈ ss := by
    intro x hx
    exact List.mem_of_mem_filter hx
  have hso_uniq : UniqueIds (getWorkloadServices w ss) :=
    UniqueIds.sublist (List.filter_sublist ss) huniq
  have hval := isWorkloadSchedulable_single k ss ms0 w hvalid
  have hinv0 : StateInv k ss
      (if st.zones.length <
          (match ((getWorkloadServices w ss).map (·.zones)).max? with
           | none => 1
           | some m => if m == 0 then 1 else m) then
        { st with
          zones := st.zones ++ (createZones
            ((match ((getWorkloadServices w ss).map (·.zones)).max? with
              | none => 1
              | some m => if m == 0 then 1 else m) - st.zones.length)
            st.zoneIdCounter).1
          zoneIdCounter := (createZones
            ((match ((getWorkloadServices w ss).map (·.zones)).max? with
              | none => 1
              | some m => if m == 0 then 1 else m) - st.zones.length)
            st.zoneIdCounter).2 }
      else st) := by
    split
    · exact ⟨hinv.ids_nodup, hinv.ids_le, hinv.noncp, hinv.cap, hinv.avoidOK⟩
    · exact hinv
  have hmain := scheduler_fold_inv k ss ms0 hms0 w (getWorkloadServices w ss)
    hso_sub hso_uniq huniq hval (getWorkloadServices w ss) [] _ [] stp
    (by simp) ⟨fun s _ i _ => rfl, fun i hi => hi⟩ hfold hinv0
  rw [← hst']
  exact hmain

/-- The fold of `workloadScheduler` over the workload list preserves the
node-state invariant when every workload passed validation. -/
theorem size_fold_inv (k : KubeletFn) (ss : List Service) (ms0 : MachineSet)
    (hms0 : (ms0.name == "controlPlane") = false)
    (huniq : UniqueIds ss) :
    ∀ (ws : List Workload) (st st' : SizerState),
    (∀ w ∈ ws, (isWorkloadSchedulable k ss [ms0] w).1 = true) →
    List.foldlM (fun st w => workloadScheduler k w ss [ms0] st) st ws = some st' →
    StateInv k ss st →
    StateInv k ss st' := by
  intro ws
  induction ws with
  | nil =>
    intro st st' _ hfold hinv
    rw [List.foldlM_nil] at hfold
    have : st = st' := by simpa using hfold
    rw [← this]
    exact hinv
  | cons w ws' ih =>
    intro st st' hall hfold hinv
    rw [List.foldlM_cons] at hfold
    cases hstep : workloadScheduler k w ss [ms0] st with
    | none =>
      rw [hstep] at hfold
      simp at hfold
    | some mid =>
      have hfold' : List.foldlM (fun st w => workloadScheduler k w ss [ms0] st)
          mid ws' = some st' := by
        rw [hstep] at hfold
        exact hfold
      exact ih mid st' (fun w' hw' => hall w' (List.mem_cons_of_mem _ hw'))
        hfold'
        (workloadScheduler_inv k ss ms0 hms0 w st mid huniq
          (hall w (List.mem_cons_self _ _)) hstep hinv)

theorem filterMap_some_fn {α β : Type} (f : α → β) (l : List α) :
    l.filterMap (fun a => some (f a)) = l.map f := by
  induction l with
  | nil => rfl
  | cons a t ih => simp [List.filterMap_cons, ih]

/-- The ids assigned by `getWorkloadFromDescriptors` are the consecutive
block following the service id counter. -/
theorem gwfd_ids (wd : WorkloadDescriptor) (wc sc : Nat) :
    ((getWorkloadFromDescriptors wd wc sc).1).filterMap (·.id) =
      wd.services.enum.map (fun p => sc + p.1 + 1) := by
  unfold getWorkloadFromDescriptors
  dsimp only
  rw [List.filterMap_map, List.filterMap_map]
  show wd.services.enum.filterMap (fun p => some (sc + p.1 + 1)) = _
  exact filterMap_some_fn _ _

/-- The service id counter returned by `getWorkloadFromDescriptors`. -/
theorem gwfd_ctr (wd : WorkloadDescriptor) (wc sc : Nat) :
    (getWorkloadFromDescriptors wd wc sc).2.2.2 = sc + wd.services.length := rfl

/-- The fold of `expandWorkloads` over an arbitrary accumulator. -/
theorem expandWorkloads_acc (wds : List WorkloadDescriptor) :
    ∀ (ws0 : List Workload) (ss0 : List Service) (c : Counters),
    wds.foldl
      (fun acc workloadDesc =>
        let adjustedWorkloadDesc :=
          if 1 < workloadDesc.count then
            { workloadDesc with
              services := workloadDesc.services.map (fun s =>
                { s with zones := workloadDesc.count }) }
          else workloadDesc
        let expanded := getWorkloadFromDescriptors adjustedWorkloadDesc
          acc.2.2.workloadId acc.2.2.serviceId
        (acc.1 ++ [expanded.2.1], acc.2.1 ++ expanded.1,
          { acc.2.2 with workloadId := expanded.2.2.1, serviceId := expanded.2.2.2 }))
      (ws0, ss0, c) =
    (ws0 ++ (expandWorkloads wds c).1, ss0 ++ (expandWorkloads wds c).2.1,
      (expandWorkloads wds c).2.2) := by
  induction wds with
  | nil =>
    intro ws0 ss0 c
    simp [expandWorkloads]
  | cons d wds' ih =>
    intro ws0 ss0 c
    unfold expandWorkloads
    simp only [List.foldl_cons]
    simp only [ih]
    simp [List.append_assoc]

theorem enum_map_fst_fn {α β : Type} (l : List α) (f : Nat → β) :
    l.enum.map (fun p => f p.1) = (List.range l.length).map f := by
  rw [show (fun p : Nat × α => f p.1) = f ∘ Prod.fst from rfl]
  rw [← List.map_map, List.enum_map_fst]

/-- The ids assigned by `expandWorkloads` are pairwise distinct and lie in
the window between the initial and final service id counters. -/
theorem expand_ids (wds : List WorkloadDescriptor) :
    ∀ c : Counters,
    ((expandWorkloads wds c).2.1.filterMap (·.id)).Nodup ∧
    (∀ i ∈ (expandWorkloads wds c).2.1.filterMap (·.id),
      c.serviceId < i ∧ i ≤ ((expandWorkloads wds c).2.2).serviceId) ∧
    c.serviceId ≤ ((expandWorkloads wds c).2.2).serviceId := by
  induction wds with
  | nil =>
    intro c
    refine ⟨?_, ?_, ?_⟩ <;> simp [expandWorkloads]
  | cons d wds' ih =>
    intro c
    unfold expandWorkloads
    simp only [List.foldl_cons]
    simp only [expandWorkloads_acc]
    simp only [List.nil_append]
    have hids := gwfd_ids
      (if 1 < d.count then
        { d with services := d.services.map (fun s => { s with zones := d.count }) }
      else d) c.workloadId c.serviceId
    rw [List.filterMap_append, hids,
      enum_map_fst_fn
        (if 1 < d.count then
          { d with services := d.services.map (fun s => { s with zones := d.count }) }
        else d).services (fun j => c.serviceId + j + 1)]
    have hE := ih { c with
      workloadId := (getWorkloadFromDescriptors
        (if 1 < d.count then
          { d with services := d.services.map (fun s => { s with zones := d.count }) }
        else d) c.workloadId c.serviceId).2.2.1
      serviceId := (getWorkloadFromDescriptors
        (if 1 < d.count then
          { d with services := d.services.map (fun s => { s with zones := d.count }) }
        else d) c.workloadId c.serviceId).2.2.2 }
    obtain ⟨hE1, hE2, hE3⟩ := hE
    dsimp only at hE2 hE3
    have hctr : (getWorkloadFromDescriptors
        (if 1 < d.count then
          { d with services := d.services.map (fun s => { s with zones := d.count }) }
        else d) c.workloadId c.serviceId).2.2.2 =
        c.serviceId +
          (if 1 < d.count then
            { d with services := d.services.map (fun s => { s with zones := d.count }) }
          else d).services.length := rfl
    have hblock : ∀ i ∈ (List.range
        (if 1 < d.count then
          { d with services := d.services.map (fun s => { s with zones := d.count }) }
        else d).services.length).map (fun j => c.serviceId + j + 1),
        c.serviceId < i ∧ i ≤ c.serviceId +
          (if 1 < d.count then
            { d with services := d.services.map (fun s => { s with zones := d.count }) }
          else d).services.length := by
      intro i hi
      obtain ⟨j, hj, hji⟩ := List.mem_map.1 hi
      have hj' := List.mem_range.1 hj
      omega
    rw [hctr] at hE2 hE3 ⊢
    refine ⟨?_, ?_, ?_⟩
    · refine List.Nodup.append ?_ hE1 ?_
      · refine List.Nodup.map ?_ (List.nodup_range _)
        intro a b hab
        have hab' : c.serviceId + a + 1 = c.serviceId + b + 1 := hab
        omega
      · intro i hi hi'
        have h1 := (hblock i hi).2
        have h2 := (hE2 i hi').1
        omega
    · intro i hi
      rcases List.mem_append.1 hi with hi' | hi'
      · have h1 := hblock i hi'
        exact ⟨h1.1, by omega⟩
      · have h1 := hE2 i hi'
        exact ⟨by omega, h1.2⟩
    · omega

/-- Every expanded service carries the cpu/memory requests of some service
descriptor of some input workload. -/
theorem expand_nonneg (wds : List WorkloadDescriptor) :
    ∀ c : Counters, ∀ s ∈ (expandWorkloads wds c).2.1,
    ∃ d ∈ wds, ∃ sd ∈ d.services,
      s.requiredCPU = sd.requiredCPU ∧ s.requiredMemory = sd.requiredMemory := by
  induction wds with
  | nil =>
    intro c s hs
    simp [expandWorkloads] at hs
  | cons d wds' ih =>
    intro c s hs
    rw [show expandWorkloads (d :: wds') c =
        (d :: wds').foldl
          (fun acc workloadDesc =>
            let adjustedWorkloadDesc :=
              if 1 < workloadDesc.count then
                { workloadDesc with
                  services := workloadDesc.services.map (fun s =>
                    { s with zones := workloadDesc.count }) }
              else workloadDesc
            let expanded := getWorkloadFromDescriptors adjustedWorkloadDesc
              acc.2.2.workloadId acc.2.2.serviceId
            (acc.1 ++ [expanded.2.1], acc.2.1 ++ expanded.1,
              { acc.2.2 with workloadId := expanded.2.2.1, serviceId := expanded.2.2.2 }))
          (([] : List Workload), ([] : List Service), c) from rfl] at hs
    simp only [List.foldl_cons] at hs
    simp only [expandWorkloads_acc] at hs
    simp only [List.nil_append] at hs
    rcases List.mem_append.1 hs with hs' | hs'
    · -- service of the head workload's own expansion
      unfold getWorkloadFromDescriptors at hs'
      dsimp only at hs'
      obtain ⟨curr, hcurr, hsc⟩ := List.mem_map.1 hs'
      obtain ⟨p, hp, hpc⟩ := List.mem_map.1 hcurr
      have hsnd : p.2 ∈ (if 1 < d.count then
          { d with services := d.services.map (fun s => { s with zones := d.count }) }
        else d).services := by
        rw [List.enum_eq_zip_range] at hp
        exact (List.of_mem_zip hp).2
      have hreq : s.requiredCPU = p.2.requiredCPU ∧
          s.requiredMemory = p.2.requiredMemory := by
        rw [← hsc, ← hpc]
        exact ⟨rfl, rfl⟩
      by_cases hcnt : 1 < d.count
      · rw [if_pos hcnt] at hsnd
        obtain ⟨sd, hsd, hsd'⟩ := List.mem_map.1 hsnd
        refine ⟨d, List.mem_cons_self _ _, sd, hsd, ?_, ?_⟩
        · rw [hreq.1, ← hsd']
        · rw [hreq.2, ← hsd']
      · rw [if_neg hcnt] at hsnd
        exact ⟨d, List.mem_cons_self _ _, p.2, hsnd, hreq.1, hreq.2⟩
    · obtain ⟨d0, hd0, sd, hsd, h1, h2⟩ := ih _ s hs'
      exact ⟨d0, List.mem_cons_of_mem _ hd0, sd, hsd, h1, h2⟩

/-! ## C1: the capacity invariant at the `size` level -/

/-- C1 (amended): over a single MachineSet that is not named
`controlPlane`, and with nonnegative cpu/memory requests in every service
descriptor, every accepted `size` call returns nodes that all satisfy the
capacity invariant: placed requests plus the kubelet overhead fit the
node's cpu, memory and disk capacity. (The unamended claim — for every
accepted input — fails: with several MachineSets, validation can succeed
against a large MachineSet while placement packs the services onto a node
of a smaller one, see the counterexample.) -/
theorem C1_capacity_single_machineset (k : KubeletFn)
    (wds : List WorkloadDescriptor) (ms0 : MachineSet) (c c' : Counters)
    (r : ClusterSizing)
    (hms0 : ms0.name ≠ "controlPlane")
    (hnn : ∀ d ∈ wds, ∀ sd ∈ d.services, 0 ≤ sd.requiredCPU ∧ 0 ≤ sd.requiredMemory)
    (hrun : size k wds [ms0] c = .ok (r, c')) :
    ∀ n ∈ r.nodes, nodeCapacityOK k r.services n := by
  have hms0' : (ms0.name == "controlPlane") = false := by
    simpa using hms0
  have huniqAll : UniqueIds ((expandWorkloads wds c).2.1) := (expand_ids wds c).1
  have hnnAll : NonnegReq ((expandWorkloads wds c).2.1) := by
    intro s hs
    obtain ⟨d, hd, sd, hsd, h1, h2⟩ := expand_nonneg wds c s hs
    rw [h1, h2]
    exact hnn d hd sd hsd
  unfold size at hrun
  dsimp only at hrun
  split at hrun
  · cases hrun
  · next hvalid =>
    split at hrun
    · cases hrun
    · next st hfold =>
      simp only [Except.ok.injEq, Prod.mk.injEq] at hrun
      obtain ⟨h1, h2⟩ := hrun
      have hall : ∀ w ∈ (expandWorkloads wds c).1,
          (isWorkloadSchedulable k ((expandWorkloads wds c).2.1) [ms0] w).1 = true := by
        have hnone := List.findSome?_eq_none_iff.1 hvalid
        intro w hw
        have := hnone w hw
        dsimp only at this
        split at this
        · assumption
        · cases this
      have hinv0 : StateInv k ((expandWorkloads wds c).2.1)
          ⟨[], [], [], ((expandWorkloads wds c).2.2).zoneId,
            ((expandWorkloads wds c).2.2).nodeId⟩ := by
        refine ⟨by simp, ?_, ?_, ?_, ?_⟩
        · intro n hn; cases hn
        · intro n hn; cases hn
        · intro _ n hn; cases hn
        · intro _ n hn; cases hn
      have hinvF := size_fold_inv k ((expandWorkloads wds c).2.1) ms0 hms0' huniqAll
        (expandWorkloads wds c).1 _ st hall hfold hinv0
      intro n hn
      have hcap := hinvF.cap hnnAll n (by rw [← h1] at hn; exact hn)
      have hserv : r.services = (expandWorkloads wds c).2.1 := by rw [← h1]
      rw [hserv]
      exact hcap

/-! ## C5: the anti-affinity invariant at the `size` level -/

instance (o : Option Nat) (l : List Nat) : Decidable (∃ i, o = some i ∧ i ∈ l) :=
  match o with
  | none => isFalse (by rintro ⟨i, h, _⟩; cases h)
  | some j =>
    if hj : j ∈ l then isTrue ⟨j, rfl, hj⟩
    else isFalse (by
      rintro ⟨i, hi, hmem⟩
      injection hi with e
      exact hj (e ▸ hmem))

instance (ss : List Service) : Decidable (NbhdAvoidFree ss) := by
  unfold NbhdAvoidFree
  infer_instance

/-- C5 (amended): over a single MachineSet not named `controlPlane`, and
provided no service's one-hop `runsWith` neighbourhood contains an `avoid`
edge, every accepted `size` call returns nodes on which no ordered pair of
distinct placed services violates `avoid`. (The unamended claim — for
every accepted input — fails: a bundle whose members avoid each other is
placed on one node without any internal check, see the counterexample.) -/
theorem C5_avoid_single_machineset (k : KubeletFn)
    (wds : List WorkloadDescriptor) (ms0 : MachineSet) (c c' : Counters)
    (r : ClusterSizing)
    (hms0 : ms0.name ≠ "controlPlane")
    (hnb : NbhdAvoidFree ((expandWorkloads wds c).2.1))
    (hrun : size k wds [ms0] c = .ok (r, c')) :
    ∀ n ∈ r.nodes, nodeAvoidOK r.services n := by
  have hms0' : (ms0.name == "controlPlane") = false := by
    simpa using hms0
  have huniqAll : UniqueIds ((expandWorkloads wds c).2.1) := (expand_ids wds c).1
  unfold size at hrun
  dsimp only at hrun
  split at hrun
  · cases hrun
  · next hvalid =>
    split at hrun
    · cases hrun
    · next st hfold =>
      simp only [Except.ok.injEq, Prod.mk.injEq] at hrun
      obtain ⟨h1, h2⟩ := hrun
      have hall : ∀ w ∈ (expandWorkloads wds c).1,
          (isWorkloadSchedulable k ((expandWorkloads wds c).2.1) [ms0] w).1 = true := by
        have hnone := List.findSome?_eq_none_iff.1 hvalid
        intro w hw
        have := hnone w hw
        dsimp only at this
        split at this
        · assumption
        · cases this
      have hinv0 : StateInv k ((expandWorkloads wds c).2.1)
          ⟨[], [], [], ((expandWorkloads wds c).2.2).zoneId,
            ((expandWorkloads wds c).2.2).nodeId⟩ := by
        refine ⟨by simp, ?_, ?_, ?_, ?_⟩
        · intro n hn; cases hn
        · intro n hn; cases hn
        · intro _ n hn; cases hn
        · intro _ n hn; cases hn
      have hinvF := size_fold_inv k ((expandWorkloads wds c).2.1) ms0 hms0' huniqAll
        (expandWorkloads wds c).1 _ st hall hfold hinv0
      intro n hn
      have hav := hinvF.avoidOK hnb n (by rw [← h1] at hn; exact hn)
      have hserv : r.services = (expandWorkloads wds c).2.1 := by rw [← h1]
      rw [hserv]
      exact hav

/-! ## C4: replica counts of a bundle -/

/-- The node-id part of the state invariant, free of any service-level
side conditions. -/
structure NodeIdsOK (st : SizerState) : Prop where
  nodup : (st.nodes.map (·.id)).Nodup
  le : ∀ n ∈ st.nodes, n.id ≤ st.nodeIdCounter

instance (st : SizerState) : Decidable (NodeIdsOK st) := by
  refine decidable_of_iff ((st.nodes.map (·.id)).Nodup ∧
    ∀ n ∈ st.nodes, n.id ≤ st.nodeIdCounter) ?_
  constructor
  · exact fun h => ⟨h.1, h.2⟩
  · exact fun h => ⟨h.nodup, h.le⟩

/-- One `placeBundleOnce` step preserves the node-id invariant over any
MachineSet list. -/
theorem placeBundleOnce_ids (k : KubeletFn) (w : Workload) (ss : List Service)
    (mss : List MachineSet) (bundle : List Service) (st st' : SizerState)
    (hp : placeBundleOnce k w ss mss bundle st = some st')
    (hids : NodeIdsOK st) :
    NodeIdsOK st' := by
  unfold placeBundleOnce at hp
  split at hp
  · cases hp
  · next bestZone used' hsel =>
    split at hp
    · cases hp
    · next nodes' zone' nodeCtr' hadd =>
      have hst' := Option.some.inj hp
      subst hst'
      rcases addServiceToZone_cases k bestZone st.nodes ss bundle [w] mss
          st.nodeIdCounter nodes' zone' nodeCtr' hids.nodup hadd with
        ⟨l1, nodeToRun, l2, hctr, hzeq, hnodes_eq, hnodes'_eq, hviab⟩ |
        ⟨w', ms, hfindw, hms, hctr, hnodes'_eq, hzeq⟩ |
        ⟨hnodes'_eq, hzeq, hctr, hfindw⟩
      · refine ⟨?_, ?_⟩
        · show (nodes'.map (·.id)).Nodup
          have : nodes'.map (·.id) = st.nodes.map (·.id) := by
            rw [hnodes'_eq, hnodes_eq]
            simp
          rw [this]
          exact hids.nodup
        · intro n hn
          show n.id ≤ nodeCtr'
          rw [hctr]
          rw [hnodes'_eq] at hn
          rcases List.mem_append.1 hn with h1 | h2
          · exact hids.le n (by rw [hnodes_eq]; exact List.mem_append_left _ h1)
          · rcases List.mem_cons.1 h2 with rfl | h3
            · exact hids.le nodeToRun
                (by rw [hnodes_eq]; exact List.mem_append_right _ (List.mem_cons_self _ _))
            · exact hids.le n (by
                rw [hnodes_eq]
                exact List.mem_append_right _ (List.mem_cons_of_mem _ h3))
      · have hnew_id : ({ (getNode ms st.nodeIdCounter).1 with
            services := bundle.filterMap (·.id) } : Node).id =
            st.nodeIdCounter + 1 := rfl
        refine ⟨?_, ?_⟩
        · show (nodes'.map (·.id)).Nodup
          rw [hnodes'_eq, List.map_append]
          refine List.Nodup.append hids.nodup (List.nodup_singleton _) ?_
          intro a ha hb'
          obtain ⟨n, hn, hna⟩ := List.mem_map.1 ha
          have h1 := hids.le n hn
          have hb'' : a = st.nodeIdCounter + 1 := by
            simpa [hnew_id] using hb'
          omega
        · intro n hn
          show n.id ≤ nodeCtr'
          rw [hctr]
          rw [hnodes'_eq] at hn
          rcases List.mem_append.1 hn with h1 | h2
          · have := hids.le n h1
            omega
          · have : n = ({ (getNode ms st.nodeIdCounter).1 with
                services := bundle.filterMap (·.id) } : Node) := by simpa using h2
            rw [this, hnew_id]
      · subst hnodes'_eq
        refine ⟨hids.nodup, ?_⟩
        intro n hn
        show n.id ≤ nodeCtr'
        rw [hctr]
        exact hids.le n hn

/-- One `placeBundleOnce` step of an owned bundle with distinct defined ids
adds exactly one placement of each bundle id: the whole bundle lands on one
single node. -/
theorem placeBundleOnce_count (k : KubeletFn) (w : Workload) (ss : List Service)
    (mss : List MachineSet) (cand : Service) (rest : List Service)
    (cid : Nat) (hcid : cand.id = some cid)
    (hown : w.services.contains cid = true)
    (i : Nat) (hib : i ∈ (cand :: rest).filterMap (·.id))
    (hbn : ((cand :: rest).filterMap (·.id)).Nodup)
    (st st' : SizerState)
    (hp : placeBundleOnce k w ss mss (cand :: rest) st = some st')
    (hids : NodeIdsOK st) :
    placementCount st'.nodes i = placementCount st.nodes i + 1 := by
  have hcount1 : ((cand :: rest).filterMap (·.id)).count i = 1 :=
    List.count_eq_one_of_mem hbn hib
  unfold placeBundleOnce at hp
  split at hp
  · cases hp
  · next bestZone used' hsel =>
    split at hp
    · cases hp
    · next nodes' zone' nodeCtr' hadd =>
      have hst' := Option.some.inj hp
      subst hst'
      rcases addServiceToZone_cases k bestZone st.nodes ss (cand :: rest) [w] mss
          st.nodeIdCounter nodes' zone' nodeCtr' hids.nodup hadd with
        ⟨l1, nodeToRun, l2, hctr, hzeq, hnodes_eq, hnodes'_eq, hviab⟩ |
        ⟨w', ms, hfindw, hms, hctr, hnodes'_eq, hzeq⟩ |
        ⟨hnodes'_eq, hzeq, hctr, hfindw⟩
      · show placementCount nodes' i = _
        rw [hnodes'_eq]
        conv_rhs => rw [hnodes_eq]
        unfold placementCount
        simp only [List.map_append, List.map_cons, List.flatten_append,
          List.flatten_cons, List.count_append]
        rw [hcount1]
        omega
      · show placementCount nodes' i = _
        rw [hnodes'_eq]
        unfold placementCount
        simp only [List.map_append, List.map_cons, List.map_nil,
          List.flatten_append, List.flatten_cons, List.flatten_nil,
          List.count_append, List.append_nil]
        rw [hcount1]
      · exfalso
        have hmem := List.find?_eq_none.1 hfindw w (List.mem_singleton.2 rfl)
        apply hmem
        show (match ((cand :: rest).head?.bind (·.id)) with
          | some i => w.services.contains i
          | none => false) = true
        rw [show (cand :: rest).head?.bind (·.id) = cand.id from rfl, hcid]
        exact hown

/-- The replica loop `placeBundleTimes` adds exactly `count` placements of
each id of an owned bundle with distinct defined ids. -/
theorem placeBundleTimes_count (k : KubeletFn) (w : Workload) (ss : List Service)
    (mss : List MachineSet) (cand : Service) (rest : List Service)
    (cid : Nat) (hcid : cand.id = some cid)
    (hown : w.services.contains cid = true)
    (i : Nat) (hib : i ∈ (cand :: rest).filterMap (·.id))
    (hbn : ((cand :: rest).filterMap (·.id)).Nodup) :
    ∀ (count : Nat) (st st' : SizerState),
    placeBundleTimes k w ss mss (cand :: rest) count st = some st' →
    NodeIdsOK st →
    placementCount st'.nodes i = placementCount st.nodes i + count := by
  intro count
  induction count with
  | zero =>
    intro st st' hp _
    unfold placeBundleTimes at hp
    rw [Option.some.inj hp]
    omega
  | succ n ih =>
    intro st st' hp hids
    unfold placeBundleTimes at hp
    rcases Option.bind_eq_some.1 hp with ⟨mid, hmid, hrest'⟩
    have h1 := placeBundleOnce_count k w ss mss cand rest cid hcid hown i hib hbn
      st mid hmid hids
    have h2 := ih mid st' hrest'
      (placeBundleOnce_ids k w ss mss (cand :: rest) st mid hmid hids)
    omega

/-- C4 (amended): the scheduler's replica loop runs `getMaxZones bundle`
times and each iteration lands the whole bundle on exactly one node, so
each bundle-member id gains exactly `getMaxZones bundle` placements — but
nothing makes the hosting zones distinct: a replica can land in an already
used zone (see the counterexample, where a 3-zone service ends up hosted
by only 2 distinct zones). -/
theorem C4_replica_count_not_distinct_zones (k : KubeletFn) (w : Workload)
    (ss : List Service) (mss : List MachineSet) (cand : Service)
    (rest : List Service)
    (cid : Nat) (hcid : cand.id = some cid)
    (hown : w.services.contains cid = true)
    (i : Nat) (hib : i ∈ (cand :: rest).filterMap (·.id))
    (hbn : ((cand :: rest).filterMap (·.id)).Nodup)
    (st st' : SizerState)
    (hp : placeBundleTimes k w ss mss (cand :: rest)
      (getMaxZones (cand :: rest)) st = some st')
    (hids : NodeIdsOK st) :
    placementCount st'.nodes i =
      placementCount st.nodes i + getMaxZones (cand :: rest) :=
  placeBundleTimes_count k w ss mss cand rest cid hcid hown i hib hbn
    (getMaxZones (cand :: rest)) st st' hp hids

/-! ## C7: ids across successive in-process calls -/

/-- A successful `size` call returns the expanded services and a counter
state whose service id field is the expansion's final counter. -/
theorem size_ok_services (k : KubeletFn) (wds : List WorkloadDescriptor)
    (mss : List MachineSet) (c : Counters) (r : ClusterSizing) (c' : Counters)
    (h : size k wds mss c = .ok (r, c')) :
    r.services = (expandWorkloads wds c).2.1 ∧
    c'.serviceId = ((expandWorkloads wds c).2.2).serviceId := by
  unfold size at h
  dsimp only at h
  split at h
  · cases h
  · split at h
    · cases h
    · next st hfold =>
      simp only [Except.ok.injEq, Prod.mk.injEq] at h
      obtain ⟨ha, hb⟩ := h
      constructor
      · rw [← ha]
      · rw [← hb]

/-- C7 (amended): id generators are module-global, not per call — the
counter state returned by one `size` call seeds the next, and every
service id of the second call strictly exceeds every service id of the
first. Hence two successive in-process calls on identical inputs cannot
return identical ids (unless no service was expanded); identical outputs
require re-seeding the counters. -/
theorem C7_ids_advance_across_calls (k : KubeletFn)
    (wds1 wds2 : List WorkloadDescriptor) (mss1 mss2 : List MachineSet)
    (c : Counters) (r1 r2 : ClusterSizing) (c1 c2 : Counters)
    (h1 : size k wds1 mss1 c = .ok (r1, c1))
    (h2 : size k wds2 mss2 c1 = .ok (r2, c2)) :
    ∀ s1 ∈ r1.services, ∀ i1, s1.id = some i1 →
    ∀ s2 ∈ r2.services, ∀ i2, s2.id = some i2 → i1 < i2 := by
  obtain ⟨hs1, hc1⟩ := size_ok_services k wds1 mss1 c r1 c1 h1
  obtain ⟨hs2, _⟩ := size_ok_services k wds2 mss2 c1 r2 c2 h2
  intro s1 hm1 i1 hid1 s2 hm2 i2 hid2
  have hi1 : i1 ∈ (expandWorkloads wds1 c).2.1.filterMap (·.id) :=
    List.mem_filterMap.2 ⟨s1, by rw [← hs1]; exact hm1, hid1⟩
  have hi2 : i2 ∈ (expandWorkloads wds2 c1).2.1.filterMap (·.id) :=
    List.mem_filterMap.2 ⟨s2, by rw [← hs2]; exact hm2, hid2⟩
  have hb1 := ((expand_ids wds1 c).2.1 i1 hi1).2
  have hb2 := ((expand_ids wds2 c1).2.1 i2 hi2).1
  rw [← hc1] at hb1
  omega

/-! ## Concrete witnesses and counterexamples (first batch) -/

/-- Chain fixture: `a` runs with `b`. -/
def chainA : Service := mkSvc (some 1) "a" 1 1 1 [2] []

/-- Chain fixture: `b` runs with `c`. -/
def chainB : Service := mkSvc (some 2) "b" 1 1 1 [3] []

/-- Chain fixture: `c` runs with nobody. -/
def chainC : Service := mkSvc (some 3) "c" 1 1 1 [] []

/-- A workload owning services 1, 2, 3. -/
def wOwner : Workload := ⟨some 1, "w", 1, [], [1, 2, 3], none⟩

/-- Empty node of the `big` MachineSet, id 1. -/
def bigNode1 : Node := ⟨1, 10, 16, 64, "big", [], "bg", [], false, none, none⟩

/-- Empty node of the `big` MachineSet, id 2. -/
def bigNode2 : Node := ⟨2, 10, 16, 64, "big", [], "bg", [], false, none, none⟩

/-- Empty node of the `big` MachineSet, id 3. -/
def bigNode3 : Node := ⟨3, 10, 16, 64, "big", [], "bg", [], false, none, none⟩

/-- Zone 1, holding the two capable nodes 1 and 2. -/
def zTwoCapable : Zone := ⟨1, [1, 2]⟩

/-- Zone 2, holding only the capable node 3. -/
def zOneCapable : Zone := ⟨2, [3]⟩

/-- A tiny single-service bundle. -/
def tinySvc : Service := mkSvc (some 7) "t" 1 1 1 [] []

/-- A control-plane node with 1 cpu / 1 GB hosting service 5, tainted
`onlyFor = ["other"]` and with workload scheduling disallowed. -/
def cpNode : Node := ⟨1, 0, 1, 1, "controlPlane", [5], "cp", ["other"], true, some false, none⟩

/-- An oversized `etcd`-named candidate that avoids service 5. -/
def etcdHuge : Service := mkSvc (some 9) "etcd-huge" 1000 1000 1 [] [5]

/-- The service hosted on `cpNode`, which avoids the candidate back. -/
def svcOnCp : Service := mkSvc (some 5) "x" 1 1 1 [] [9]

/-- Workload owning the `etcd-huge` candidate. -/
def wCp : Workload := ⟨some 1, "w", 1, [], [9], none⟩

/-- The error produced by `size` on `wdTooBig` × `msXyzq`. -/
def errTooBig : NotSchedulableError :=
  ⟨"w", 62, 8,
    "Workload \"w\" is not schedulable. All available MachineSets are too small " ++
    "to run this workload. Minimum required: at least 62 CPU and 8 GB memory."⟩

section ConcreteChecks

attribute [local semireducible] Rat.add Rat.mul Rat.sub Rat.inv Rat.ofScientific

/-- C10 witness: the bypass admits a candidate that exceeds the node's
capacity tenfold, avoids (and is avoided by) the hosted service, and is
excluded by the node's taint. -/
theorem C10_control_plane_bypass_witness :
    canNodeAddService kubeletSpecModel cpNode etcdHuge [svcOnCp] [wCp] [] = true :=
  C10_control_plane_bypass kubeletSpecModel cpNode etcdHuge [svcOnCp] [wCp] [] 9 wCp
    rfl (by decide) rfl (by decide) (Or.inl rfl)

/-- C9 counterexample: with no owning workload and no viable node,
`addServiceToZone` succeeds (`some`) with the state unchanged — it does not
abort with an Internal error. -/
theorem C9_counterexample :
    addServiceToZone kubeletSpecModel ⟨1, []⟩ [] [] [mkSvc (some 5) "s" 1 1 1 [] []]
      [] [] 0 = some ([], ⟨1, []⟩, 0) := by decide

/-- C9 witness: the silent no-op on an ownerless bundle, with a workload
present that owns different services and an existing (non-viable) node. -/
theorem C9_silent_noop_witness :
    addServiceToZone kubeletSpecModel ⟨2, [1]⟩ [bigNode1] []
      [mkSvc (some 5) "s" 1 1 1 [] []] [⟨some 1, "w", 1, [], [8], none⟩] [msBig] 3 =
      some ([bigNode1], ⟨2, [1]⟩, 3) :=
  C9_silent_noop_on_ownerless kubeletSpecModel ⟨2, [1]⟩ [bigNode1] []
    [mkSvc (some 5) "s" 1 1 1 [] []] [⟨some 1, "w", 1, [], [8], none⟩] [msBig] 3
    (by decide) (by decide)

/-- C2 counterexample: with the chain `a →runsWith b →runsWith c`, service
`c` lies in the connected component of `a` under the symmetric closure of
`runsWith` (the claim's bundle), but not in the bundle the scheduler forms
around `a`. -/
theorem C2_counterexample :
    chainC ∈ specComponent chainA [chainA, chainB, chainC] ∧
    chainC ∉ getCoplacedServices chainA [chainA, chainB, chainC] := by decide

/-- C2 witness: the membership characterisation at `t := chainB`, and atomic
placement of the bundle `[a, b]` on the single freshly created node. -/
theorem C2_one_hop_witness :
    (chainB ∈ getCoplacedServices chainA [chainA, chainB, chainC] ↔
      chainB = chainA ∨ (chainB ∈ [chainA, chainB, chainC] ∧
        (∃ i, chainB.id = some i ∧ i ∈ chainA.runsWith) ∧ chainB.id ≠ chainA.id)) ∧
    ∃ n ∈ [({ bigNode1 with services := [1, 2] } : Node)],
      ∀ j ∈ ([chainA, chainB].filterMap (·.id)), j ∈ n.services :=
  C2_one_hop_bundle_and_atomic_placement chainA chainB [chainA, chainB, chainC]
    kubeletSpecModel ⟨1, []⟩ [] [chainA, chainB] [chainA, chainB] [wOwner] [msBig] 0
    [({ bigNode1 with services := [1, 2] } : Node)] ⟨1, [1]⟩ 1
    (by decide) (by decide)

/-- C3 counterexample: zone 1 has two capable nodes, zone 2 has one; the
claim mandates zone 1 (the best-ranked), but the selection step returns
zone 2. -/
theorem C3_counterexample :
    (selectZone kubeletSpecModel [zTwoCapable, zOneCapable] [bigNode1, bigNode2, bigNode3]
      [] [tinySvc] []).1 = some zOneCapable ∧
    zOneCapable ≠ zTwoCapable ∧
    capableNodesInZone kubeletSpecModel zTwoCapable [bigNode1, bigNode2, bigNode3] []
      (getTotalResourceRequirement [tinySvc]) = 2 ∧
    capableNodesInZone kubeletSpecModel zOneCapable [bigNode1, bigNode2, bigNode3] []
      (getTotalResourceRequirement [tinySvc]) = 1 := by decide

/-- C3 witness: the amended selection property at the two-zone fixture. -/
theorem C3_selects_worst_witness :
    ∃ z₀, (selectZone kubeletSpecModel [zTwoCapable, zOneCapable]
        [bigNode1, bigNode2, bigNode3] [] [tinySvc] []).1 = some z₀ ∧
      z₀ ∈ [zTwoCapable, zOneCapable] ∧ (!([] : List Nat).contains z₀.id) = true ∧
      0 < capableNodesInZone kubeletSpecModel z₀ [bigNode1, bigNode2, bigNode3] []
        (getTotalResourceRequirement [tinySvc]) ∧
      ∀ z ∈ [zTwoCapable, zOneCapable], (!([] : List Nat).contains z.id) = true →
        0 < capableNodesInZone kubeletSpecModel z [bigNode1, bigNode2, bigNode3] []
          (getTotalResourceRequirement [tinySvc]) →
        capableNodesInZone kubeletSpecModel z₀ [bigNode1, bigNode2, bigNode3] []
          (getTotalResourceRequirement [tinySvc]) ≤
          capableNodesInZone kubeletSpecModel z [bigNode1, bigNode2, bigNode3] []
            (getTotalResourceRequirement [tinySvc]) ∧
        (capableNodesInZone kubeletSpecModel z [bigNode1, bigNode2, bigNode3] []
            (getTotalResourceRequirement [tinySvc]) =
          capableNodesInZone kubeletSpecModel z₀ [bigNode1, bigNode2, bigNode3] []
            (getTotalResourceRequirement [tinySvc]) → z₀.id ≤ z.id) :=
  C3_selects_worst_ranked_zone kubeletSpecModel [zTwoCapable, zOneCapable]
    [bigNode1, bigNode2, bigNode3] [] [tinySvc] [] (by decide)

set_option maxRecDepth 4000 in
/-- C6 counterexample: on `wdTooBig` × `msXyzq` the produced minimum cpu is
62 — computed from the whole workload (30 + 30 + kubelet) — while the
claim's failing-bundle formula gives 32; and the message does not mention
the target MachineSet's name `xyzq`. -/
theorem C6_counterexample :
    ((sizeErrorOf (size kubeletSpecModel [wdTooBig] [msXyzq] Counters.fresh)).map
      (fun e => (strContains e.message "xyzq", e.minRequiredCPU))) = some (false, 62) ∧
    min 200 (⌈((30 : ℚ) + kubeletSpecModel.cpu 16) / 2⌉ * 2) = 32 := by decide

set_option maxRecDepth 4000 in
/-- C6 witness: the amended error characterisation at the concrete failing
input. -/
theorem C6_error_witness :
    ∃ w ∈ (expandWorkloads [wdTooBig] Counters.fresh).1,
      (isWorkloadSchedulable kubeletSpecModel
        (expandWorkloads [wdTooBig] Counters.fresh).2.1 [msXyzq] w).1 = false ∧
      errTooBig.workloadName = w.name ∧
      errTooBig.minRequiredCPU = min 200
        (⌈((getTotalResourceRequirement
              (getWorkloadServices w (expandWorkloads [wdTooBig] Counters.fresh).2.1)).totalCPU +
            kubeletSpecModel.cpu
              (((targetMachineSetFor w [msXyzq]).map (·.cpu)).getD 0)) / 2⌉ * 2) ∧
      errTooBig.minRequiredMemory = min 512
        (⌈((getTotalResourceRequirement
              (getWorkloadServices w (expandWorkloads [wdTooBig] Counters.fresh).2.1)).totalMem +
            kubeletSpecModel.mem
              (((targetMachineSetFor w [msXyzq]).map (·.memory)).getD 0)) / 4⌉ * 4) ∧
      errTooBig.message =
        "Workload \"" ++ w.name ++ "\" is not schedulable. " ++
        "All available MachineSets are too small to run this workload. " ++
        "Minimum required: at least " ++ toString errTooBig.minRequiredCPU ++
        " CPU and " ++ toString errTooBig.minRequiredMemory ++ " GB memory." :=
  C6_error_from_workload_totals kubeletSpecModel [wdTooBig] [msXyzq] Counters.fresh
    errTooBig (by decide)

/-- The sizing returned by `size` on `[wdMismatch]` over `[msBig]` from
fresh counters. -/
def okSizing1 : ClusterSizing :=
  ⟨1, 1, 16, 64, [⟨1, 10, 16, 64, "big", [1], "bg", [], false, none, none⟩],
   [⟨1, [1]⟩], [mkSvc (some 1) "s" 10 10 1 [] []]⟩

/-- The same sizing as returned by the second in-process call (all ids
shifted by one). -/
def okSizing2 : ClusterSizing :=
  ⟨1, 1, 16, 64, [⟨2, 10, 16, 64, "big", [2], "bg", [], false, none, none⟩],
   [⟨2, [2]⟩], [mkSvc (some 2) "s" 10 10 1 [] []]⟩

set_option maxRecDepth 8000 in
/-- An accepted `size` call (two MachineSets: validation passes via `big`)
whose returned node violates the capacity invariant: the claim C1 fails
without the single-MachineSet hypothesis. -/
theorem C1_counterexample :
    (size kubeletSpecModel [wdMismatch] [msSmall, msBig] Counters.fresh).toOption.map
      (fun rc => decide (∀ n ∈ rc.1.nodes,
        nodeCapacityOK kubeletSpecModel rc.1.services n)) = some false := by
  decide

set_option maxRecDepth 8000 in
/-- Witness for C1: a concrete accepted run over a single non-control-plane
MachineSet with nonnegative requests; every returned node satisfies the
capacity invariant. -/
theorem C1_capacity_witness :
    ∃ r c', size kubeletSpecModel [wdMismatch] [msBig] Counters.fresh = .ok (r, c') ∧
      ∀ n ∈ r.nodes, nodeCapacityOK kubeletSpecModel r.services n := by
  refine ⟨okSizing1, ⟨1, 1, 1, 1⟩, by decide, ?_⟩
  exact C1_capacity_single_machineset kubeletSpecModel [wdMismatch] msBig
    Counters.fresh ⟨1, 1, 1, 1⟩ okSizing1 (by decide) (by decide) (by decide)

set_option maxRecDepth 8000 in
/-- An accepted `size` call on which some service with `zones = 3` is
hosted by only 2 distinct zones: the distinct-zone part of C4 is false. -/
theorem C4_counterexample :
    (size kubeletSpecModel [wdZones] [msBig] Counters.fresh).toOption.map
      (fun rc => decide (∀ s ∈ rc.1.services, ∀ i, s.id = some i →
        zonesHosting rc.1.zoneDetails rc.1.nodes i = s.zones)) = some false := by
  decide

set_option maxRecDepth 8000 in
/-- Witness for C4: a concrete replica loop adding exactly
`getMaxZones bundle` placements of the bundle's id. -/
theorem C4_replica_witness :
    ∃ st', placeBundleTimes kubeletSpecModel wOwner [chainA] [msBig] [chainA]
        (getMaxZones [chainA]) ⟨[⟨1, []⟩], [], [], 1, 0⟩ = some st' ∧
      placementCount st'.nodes 1 =
        placementCount (⟨[⟨1, []⟩], [], [], 1, 0⟩ : SizerState).nodes 1 +
          getMaxZones [chainA] := by
  refine ⟨⟨[⟨1, [1]⟩], [⟨1, 10, 16, 64, "big", [1], "bg", [], false, none, none⟩],
    [1], 1, 1⟩, by decide, ?_⟩
  exact C4_replica_count_not_distinct_zones kubeletSpecModel wOwner [chainA] [msBig]
    chainA [] 1 (by decide) (by decide) 1 (by decide) (by decide)
    ⟨[⟨1, []⟩], [], [], 1, 0⟩
    ⟨[⟨1, [1]⟩], [⟨1, 10, 16, 64, "big", [1], "bg", [], false, none, none⟩], [1], 1, 1⟩
    (by decide) (by decide)

set_option maxRecDepth 8000 in
/-- An accepted `size` call returning a node hosting two services that
avoid each other (the avoid edge lies inside a `runsWith` bundle): C5
fails without the bundle-internal hypothesis. -/
theorem C5_counterexample :
    (size kubeletSpecModel [wdAvoid] [msBig] Counters.fresh).toOption.map
      (fun rc => decide (∀ n ∈ rc.1.nodes,
        nodeAvoidOK rc.1.services n)) = some false := by
  decide

set_option maxRecDepth 8000 in
/-- Witness for C5: a concrete accepted avoid-free run; every returned
node satisfies the anti-affinity invariant. -/
theorem C5_avoid_witness :
    ∃ r c', size kubeletSpecModel [wdMismatch] [msBig] Counters.fresh = .ok (r, c') ∧
      ∀ n ∈ r.nodes, nodeAvoidOK r.services n := by
  refine ⟨okSizing1, ⟨1, 1, 1, 1⟩, by decide, ?_⟩
  exact C5_avoid_single_machineset kubeletSpecModel [wdMismatch] msBig
    Counters.fresh ⟨1, 1, 1, 1⟩ okSizing1 (by decide) (by decide) (by decide)

set_option maxRecDepth 8000 in
/-- Two successive in-process `size` calls on identical inputs (the second
seeded with the counters returned by the first) return different sizings:
the ids differ, refuting C7 as stated. -/
theorem C7_counterexample :
    ((size kubeletSpecModel [wdMismatch] [msBig] Counters.fresh).toOption.map
      Prod.fst) ≠
    (((size kubeletSpecModel [wdMismatch] [msBig] Counters.fresh).toOption.bind
      (fun rc => (size kubeletSpecModel [wdMismatch] [msBig] rc.2).toOption)).map
      Prod.fst) := by
  decide

set_option maxRecDepth 8000 in
/-- Witness for C7: on a concrete pair of successive calls, every service
id of the second call strictly exceeds every id of the first. -/
theorem C7_ids_witness :
    ∃ r1 c1 r2 c2,
      size kubeletSpecModel [wdMismatch] [msBig] Counters.fresh = .ok (r1, c1) ∧
      size kubeletSpecModel [wdMismatch] [msBig] c1 = .ok (r2, c2) ∧
      (∀ s1 ∈ r1.services, ∀ i1, s1.id = some i1 →
        ∀ s2 ∈ r2.services, ∀ i2, s2.id = some i2 → i1 < i2) := by
  refine ⟨okSizing1, ⟨1, 1, 1, 1⟩, okSizing2, ⟨2, 2, 2, 2⟩, by decide, by decide, ?_⟩
  exact C7_ids_advance_across_calls kubeletSpecModel [wdMismatch] [wdMismatch]
    [msBig] [msBig] Counters.fresh okSizing1 okSizing2 ⟨1, 1, 1, 1⟩ ⟨2, 2, 2, 2⟩
    (by decide) (by decide)

end ConcreteChecks

end Sizer
